import Mathlib

/-
  Shallow embedding of build/validate_format.py, a Markdown-table linter.

  The Python module scans a document twice: `check_alphabetical` collects the
  uppercased first-cell titles of every table row into a dict keyed by section
  name and reports unsorted sections, while `check_format` walks the lines a
  second time checking header shape, a minimum row count per section, cell
  spacing, and per-field rules on every row.  Errors are formatted eagerly as
  `(L%03d) message` strings and printed by `main`, which exits 1 when any
  error was collected.

  Python strings become `String`, fallible operations (`xs[i]`, `s[0]`,
  `s[-1]`, dict lookup, reading an unbound local) return `Except PyExc`.
  The global error list is threaded through the scan; an uncaught exception
  aborts the program before anything is printed, so a computation that raises
  discards the errors accumulated so far, which matches the observable
  (printed) behaviour of the script.  Errors carry an `ErrKind` tag recording
  which emission site produced them; the printed string is `Err.format`,
  exactly the string built by the script's `add_error`.
-/

/-- Exceptions the script can raise: out-of-range indexing (`IndexError`),
reading the local `category` before assignment (`UnboundLocalError`),
and a missing dict key (`KeyError`). -/
inductive PyExc
  | indexError
  | unboundLocalError
  | keyError
  deriving DecidableEq

/-- The characters stripped by Python `str.strip()` / matched by regex `\s`. -/
def pyIsSpace (c : Char) : Bool :=
  c = ' ' || c = '\t' || c = '\n' || c = '\r' || c = '\x0b' || c = '\x0c'

/-- Python `s.lstrip()`. -/
def pyLstrip (s : String) : String := ⟨s.data.dropWhile pyIsSpace⟩

/-- Python `s.rstrip()`. -/
def pyRstrip (s : String) : String := ⟨(s.data.reverse.dropWhile pyIsSpace).reverse⟩

/-- Python `s.strip()`. -/
def pyStrip (s : String) : String := pyRstrip (pyLstrip s)

/-- Python `s.startswith(p)`. -/
def pyStartsWith (s p : String) : Bool := p.data.isPrefixOf s.data

/-- Python `s.endswith(p)`. -/
def pyEndsWith (s p : String) : Bool := p.data.isSuffixOf s.data

/-- Python `s.upper()` (on the ASCII letters the documents use). -/
def pyUpper (s : String) : String := ⟨s.data.map Char.toUpper⟩

/-- Python `s.replace(c, "")`: delete every occurrence of the character. -/
def pyReplaceAll (s : String) (c : Char) : String := ⟨s.data.filter (fun d => d ≠ c)⟩

/-- One-character string, for interpolating a character into a message. -/
def charStr (c : Char) : String := ⟨[c]⟩

/-- Python `xs[i]` on a list: `IndexError` when out of range. -/
def pyIdx {α : Type} (xs : List α) (i : Nat) : Except PyExc α :=
  match xs.get? i with
  | some x => .ok x
  | none => .error .indexError

/-- Python `s[0]` on a string. -/
def strFirst (s : String) : Except PyExc Char :=
  match s.data with
  | [] => .error .indexError
  | c :: _ => .ok c

/-- Python `s[-1]` on a string. -/
def strLast (s : String) : Except PyExc Char :=
  match s.data.getLast? with
  | none => .error .indexError
  | some c => .ok c

/-- Helper for `pySplitChar`: accumulates the current field reversed. -/
def pySplitCharAux (sep : Char) : List Char → List Char → List String
  | [], acc => [⟨acc.reverse⟩]
  | d :: ds, acc =>
      if d = sep then ⟨acc.reverse⟩ :: pySplitCharAux sep ds []
      else pySplitCharAux sep ds (d :: acc)

/-- Python `s.split(sep)` for a one-character separator: no collapsing,
empty fields kept. -/
def pySplitChar (s : String) (sep : Char) : List String := pySplitCharAux sep s.data []

/-- Helper for `pySplitAnchor`: split on non-overlapping occurrences of
the three-character anchor `###`, left to right. -/
def splitAnchorAux : List Char → List Char → List String
  | '#' :: '#' :: '#' :: ds, acc => ⟨acc.reverse⟩ :: splitAnchorAux ds []
  | d :: ds, acc => splitAnchorAux ds (d :: acc)
  | [], acc => [⟨acc.reverse⟩]

/-- Python `line.split('###')`. -/
def pySplitAnchor (s : String) : List String := splitAnchorAux s.data []

/-- `line.split('|')[1:-1]`: the raw cells of a table row between the first
and last delimiter. -/
def rowCells (line : String) : List String := ((pySplitChar line '|').drop 1).dropLast

/-- Which emission site in the script produced an error. -/
inductive ErrKind
  | alphabetical
  | headerFormat
  | minCount
  | spacing
  | title
  | descCap
  | descPunct
  | authBacktick
  | authEnum
  | httpsEnum
  | corsEnum
  | linkSyntax
  deriving DecidableEq

/-- An accumulated error: the 0-based line number and message handed to
`add_error`, plus the tag of the emission site. -/
structure Err where
  kind : ErrKind
  lineNum : Nat
  msg : String
  deriving DecidableEq

/-- Python `'{:03d}'.format n`: decimal digits left-padded with zeros to
width 3. -/
def pad3 (n : Nat) : String := ⟨List.replicate (3 - (toString n).length) '0' ++ (toString n).data⟩

/-- The string built by `add_error`: `(L{:03d}) {msg}` with the 1-based
line number. -/
def Err.format (e : Err) : String := "(L" ++ pad3 (e.lineNum + 1) ++ ") " ++ e.msg

/-- Build a tagged error. -/
def mkErr (k : ErrKind) (lineNum : Nat) (msg : String) : Err := ⟨k, lineNum, msg⟩

/-- `anchor = '###'`. -/
def anchorStr : String := "###"

/-- `min_entries_per_section = 3`. -/
def minEntriesPerSection : Nat := 3

/-- `auth_keys`. -/
def authKeys : List String := ["apiKey", "OAuth", "X-Mashape-Key", "No"]

/-- `punctuation`: the list of one-character strings `['.', '?', '!']`. -/
def punctuationChars : List Char := ['.', '?', '!']

/-- `https_keys`. -/
def httpsKeys : List String := ["Yes", "No"]

/-- `cors_keys`. -/
def corsKeys : List String := ["Yes", "No", "Unknown"]

/-- Message printed by `main` when no filename argument is supplied. -/
def usageMsg : String := "No file passed (file should contain Markdown table syntax)"

/-- Message of the header-shape error. -/
def headerFmtMsg : String := "section header is not formatted correctly"

/-- Message of the cell-spacing error. -/
def spacingMsg : String := "each segment must start and end with exactly 1 space"

/-- Message of the minimum-row-count error, with the section name and the
actual count interpolated. -/
def countMsg (cat : String) (n : Nat) : String :=
  cat ++ " section does not have the minimum " ++ toString minEntriesPerSection ++
    " entries (only has " ++ toString n ++ ")"

/-- Message of the alphabetical-order error for a section. -/
def alphaMsg (cat : String) : String := cat ++ " section is not in alphabetical order"

/-- Message of the Title check. -/
def titleMsg : String := "Title should not contain \"API\""

/-- Message of the description-capitalization check. -/
def descCapMsg : String := "first character of description is not capitalized"

/-- Message of the description-punctuation check, with the offending
character interpolated. -/
def descPunctMsg (c : Char) : String := "description should not end with " ++ charStr c

/-- Message of the Auth backtick-quoting check. -/
def authBacktickMsg : String := "auth value is not enclosed with `backticks`"

/-- Message of the Auth enumeration check. -/
def authEnumMsg (a : String) : String := a ++ " is not a valid Auth option"

/-- Message of the HTTPS enumeration check. -/
def httpsEnumMsg (h : String) : String := h ++ " is not a valid HTTPS option"

/-- Message of the CORS enumeration check. -/
def corsEnumMsg (c : String) : String := c ++ " is not a valid CORS option"

/-- Message of the Link markup check. -/
def linkMsg : String := "link syntax should be \"[Go!](LINK)\""

/-- Lexicographic code-point comparison of character lists, as Python
compares strings. -/
def charListLt : List Char → List Char → Bool
  | [], [] => false
  | [], _ :: _ => true
  | _ :: _, [] => false
  | a :: as, b :: bs => if a < b then true else if b < a then false else charListLt as bs

/-- Python string `<=`. -/
def pyStrLe (a b : String) : Bool := !(charListLt b.data a.data)

/-- Insert into a sorted list (ties keep the incoming element first, which
for identical strings is indistinguishable). -/
def pyInsertSorted (x : String) : List String → List String
  | [] => [x]
  | y :: ys => if pyStrLe x y then x :: y :: ys else y :: pyInsertSorted x ys

/-- Python `sorted` on a list of strings (insertion sort; agrees with any
stable sort because equal strings are identical). -/
def pySorted : List String → List String
  | [] => []
  | x :: xs => pyInsertSorted x (pySorted xs)

/-- Python dict assignment `d[k] = v`: update in place when the key exists
(its position is kept), otherwise append, as insertion-ordered dicts do. -/
def dictSet {α : Type} (d : List (String × α)) (k : String) (v : α) : List (String × α) :=
  if d.any (fun p => p.1 == k) then d.map (fun p => if p.1 == k then (k, v) else p)
  else d ++ [(k, v)]

/-- Python `d[k].append(v)` for the title dict: `KeyError` when the key is
absent. -/
def dictAppendTitle (d : List (String × List String)) (k : String) (v : String) :
    Except PyExc (List (String × List String)) :=
  if d.any (fun p => p.1 == k) then
    .ok (d.map (fun p => if p.1 == k then (p.1, p.2 ++ [v]) else p))
  else .error .keyError

/-- Python `d[k]` for the line-number dict. -/
def dictGet (d : List (String × Nat)) (k : String) : Except PyExc Nat :=
  match d.find? (fun p => p.1 == k) with
  | some p => .ok p.2
  | none => .error .keyError

/-- The loop state of `check_alphabetical`: the `sections` dict, the
`section_line_num` dict, and the local `category` (`none` before its first
assignment, so that reading it raises `UnboundLocalError`). -/
structure AlphaState where
  sections : List (String × List String)
  lineNums : List (String × Nat)
  category : Option String
  deriving DecidableEq

/-- One iteration of the first loop of `check_alphabetical`. -/
def alphaStep (st : AlphaState) (lineNum : Nat) (line : String) : Except PyExc AlphaState :=
  if pyStartsWith line anchorStr then
    match pyIdx (pySplitAnchor line) 1 with
    | .error e => .error e
    | .ok raw =>
        .ok ⟨dictSet st.sections (pyStrip raw) [],
             dictSet st.lineNums (pyStrip raw) lineNum, some (pyStrip raw)⟩
  else if !(pyStartsWith line "|") || pyStartsWith line "|---" then .ok st
  else
    match pyIdx ((rowCells line).map pyStrip) 0 with
    | .error e => .error e
    | .ok t =>
        match st.category with
        | none => .error .unboundLocalError
        | some c =>
            match dictAppendTitle st.sections c (pyUpper t) with
            | .error e => .error e
            | .ok secs => .ok ⟨secs, st.lineNums, some c⟩

/-- The first loop of `check_alphabetical` over the remaining lines. -/
def alphaScan (st : AlphaState) (lineNum : Nat) : List String → Except PyExc AlphaState
  | [] => .ok st
  | line :: rest =>
      match alphaStep st lineNum line with
      | .error e => .error e
      | .ok st2 => alphaScan st2 (lineNum + 1) rest

/-- The second loop of `check_alphabetical`: one error per stored section
whose title list differs from its sorted form. -/
def alphaEmit (lineNums : List (String × Nat)) :
    List (String × List String) → Except PyExc (List Err)
  | [] => .ok []
  | (cat, entries) :: rest =>
      if pySorted entries = entries then alphaEmit lineNums rest
      else
        match dictGet lineNums cat with
        | .error e => .error e
        | .ok ln =>
            match alphaEmit lineNums rest with
            | .error e => .error e
            | .ok more => .ok (mkErr .alphabetical ln (alphaMsg cat) :: more)

/-- `check_alphabetical(lines)`. -/
def check_alphabetical (lines : List String) : Except PyExc (List Err) :=
  match alphaScan ⟨[], [], none⟩ 0 lines with
  | .error e => .error e
  | .ok st => alphaEmit st.lineNums st.sections

/-- `check_entry(line_num, segments)`: the per-row field checks, in source
order.  Each access that can raise is sequenced exactly where the source
performs it; the errors appended before a raise are discarded because the
exception aborts the program before the error list is printed. -/
def check_entry (lineNum : Nat) (segments : List String) : Except PyExc (List Err) :=
  match pyIdx segments 0 with
  | .error e => .error e
  | .ok t =>
    let e1 := if pyEndsWith (pyUpper t) " API" then [mkErr .title lineNum titleMsg] else []
    match pyIdx segments 1 with
    | .error e => .error e
    | .ok d =>
      match strFirst d with
      | .error e => .error e
      | .ok c0 =>
        let e2 := if Char.toUpper c0 != c0 then [mkErr .descCap lineNum descCapMsg] else []
        match strLast d with
        | .error e => .error e
        | .ok cl =>
          let e3 := if punctuationChars.contains cl then
              [mkErr .descPunct lineNum (descPunctMsg cl)] else []
          match pyIdx segments 2 with
          | .error e => .error e
          | .ok auth =>
            let e4 := if auth != "No" && (!(pyStartsWith auth "`") || !(pyEndsWith auth "`")) then
                [mkErr .authBacktick lineNum authBacktickMsg] else []
            let e5 := if !(authKeys.contains (pyReplaceAll auth '`')) then
                [mkErr .authEnum lineNum (authEnumMsg auth)] else []
            match pyIdx segments 3 with
            | .error e => .error e
            | .ok https =>
              let e6 := if !(httpsKeys.contains https) then
                  [mkErr .httpsEnum lineNum (httpsEnumMsg https)] else []
              match pyIdx segments 4 with
              | .error e => .error e
              | .ok cors =>
                let e7 := if !(corsKeys.contains cors) then
                    [mkErr .corsEnum lineNum (corsEnumMsg cors)] else []
                match pyIdx segments 5 with
                | .error e => .error e
                | .ok link =>
                  let e8 := if !(pyStartsWith link "[Go!](http") || !(pyEndsWith link ")") then
                      [mkErr .linkSyntax lineNum linkMsg] else []
                  .ok (e1 ++ e2 ++ e3 ++ e4 ++ e5 ++ e6 ++ e7 ++ e8)

/-- The loop state of the entry-checking pass of `check_format`. -/
structure FmtState where
  numInCategory : Nat
  category : String
  categoryLine : Nat
  deriving DecidableEq

/-- `re.match('###\s\S+', line)` as a Boolean: a *prefix* match, so the line
must begin with the anchor, one whitespace character, and one
non-whitespace character; anything may follow. -/
def reMatchAnchor (s : String) : Bool :=
  match s.data with
  | '#' :: '#' :: '#' :: c :: d :: _ => pyIsSpace c && !pyIsSpace d
  | _ => false

/-- The spacing test of `check_format`:
`len(seg) - len(seg.lstrip()) != 1 or len(seg) - len(seg.rstrip()) != 1`. -/
def spacingBad (seg : String) : Bool :=
  seg.data.length - (pyLstrip seg).data.length != 1 ||
  seg.data.length - (pyRstrip seg).data.length != 1

/-- One iteration of the entry-checking loop of `check_format`.  On a header
the shape error and the previous section's count error are recorded before
`line.split(' ')[1]` is evaluated (whose `IndexError` would abort the
program, discarding them). -/
def fmtStep (st : FmtState) (lineNum : Nat) (line : String) :
    Except PyExc (FmtState × List Err) :=
  if pyStartsWith line anchorStr then
    let e1 := if !reMatchAnchor line then [mkErr .headerFormat lineNum headerFmtMsg] else []
    let e2 := if st.numInCategory < minEntriesPerSection then
        [mkErr .minCount st.categoryLine (countMsg st.category st.numInCategory)] else []
    match pyIdx (pySplitChar line ' ') 1 with
    | .error e => .error e
    | .ok cat => .ok (⟨0, cat, lineNum⟩, e1 ++ e2)
  else if !(pyStartsWith line "|") || pyStartsWith line "|---" then .ok (st, [])
  else
    let segments := rowCells line
    let spacingErrs := segments.filterMap (fun seg =>
      if spacingBad seg then some (mkErr .spacing lineNum spacingMsg) else none)
    match check_entry lineNum (segments.map pyStrip) with
    | .error e => .error e
    | .ok entryErrs =>
        .ok (⟨st.numInCategory + 1, st.category, st.categoryLine⟩, spacingErrs ++ entryErrs)

/-- The entry-checking loop of `check_format`, returning the final state
and the errors in emission order. -/
def fmtScan (st : FmtState) (lineNum : Nat) : List String → Except PyExc (FmtState × List Err)
  | [] => .ok (st, [])
  | line :: rest =>
      match fmtStep st lineNum line with
      | .error e => .error e
      | .ok (st2, errs) =>
          match fmtScan st2 (lineNum + 1) rest with
          | .error e => .error e
          | .ok (st3, more) => .ok (st3, errs ++ more)

/-- The entry-checking pass of `check_format` (everything after the call to
`check_alphabetical`): `num_in_category` starts at
`min_entries_per_section + 1`, `category` at `""`, `category_line` at 0. -/
def check_format_lines (lines : List String) : Except PyExc (List Err) :=
  match fmtScan ⟨minEntriesPerSection + 1, "", 0⟩ 0 lines with
  | .error e => .error e
  | .ok (_, errs) => .ok errs

/-- `check_format(filename)` on the already-read, rstripped lines: the
alphabetical pass runs to completion first, then the entry-checking scan;
the global error list therefore holds the alphabetical errors followed by
the scan errors. -/
def runValidator (lines : List String) : Except PyExc (List Err) :=
  match check_alphabetical lines with
  | .error e => .error e
  | .ok a =>
      match check_format_lines lines with
      | .error e => .error e
      | .ok f => .ok (a ++ f)

/-- `main()`: `argv` is `sys.argv` (program name included), `fileLines` the
raw lines of the file named by `argv[1]`.  Returns the printed lines and
the exit status.  Without a filename argument the file is never read. -/
def run_main (argv : List String) (fileLines : List String) :
    Except PyExc (List String × Nat) :=
  if argv.length < 2 then .ok ([usageMsg], 1)
  else
    match runValidator (fileLines.map pyRstrip) with
    | .error e => .error e
    | .ok errs => if errs.length > 0 then .ok (errs.map Err.format, 1) else .ok ([], 0)

/-
  Specification-side definitions, written from the spec's wording, used on
  the right-hand side of the claims and for refinement comparisons.
-/

/-- The claim's header shape: the anchor, exactly one space, exactly one
non-space token, and nothing after that token. -/
def specHeaderForm (line : String) : Bool :=
  pyStartsWith line "### " && !((line.data.drop 4).isEmpty) &&
    (line.data.drop 4).all (fun c => !pyIsSpace c)

/-- Number of leading space characters (spaces proper, as the claim says). -/
def leadSpaceCount (s : String) : Nat := (s.data.takeWhile (fun c => c = ' ')).length

/-- Number of trailing space characters. -/
def trailSpaceCount (s : String) : Nat := (s.data.reverse.takeWhile (fun c => c = ' ')).length

/-- The claim's spacing violation: not exactly one leading and one trailing
space character. -/
def specSpacingViolation (s : String) : Bool :=
  leadSpaceCount s != 1 || trailSpaceCount s != 1

/-- Number of leading whitespace characters (Python `str.lstrip`). -/
def leadWsCount (s : String) : Nat := (s.data.takeWhile pyIsSpace).length

/-- Number of trailing whitespace characters. -/
def trailWsCount (s : String) : Nat := (s.data.reverse.takeWhile pyIsSpace).length

/-- Title check predicate: the uppercased title ends with " API". -/
def titleBad (t : String) : Bool := pyEndsWith (pyUpper t) " API"

/-- First character of a string, with a harmless default for the empty
string (only used under a nonemptiness hypothesis). -/
def pyFirstD (s : String) : Char := s.data.headD ' '

/-- Last character of a string, with a harmless default. -/
def pyLastD (s : String) : Char := s.data.getLastD ' '

/-- Description-capitalization predicate: the first character differs from
its uppercased form. -/
def descCapBad (d : String) : Bool := Char.toUpper (pyFirstD d) != pyFirstD d

/-- Description-punctuation predicate: the last character is `.`, `?`
or `!`. -/
def descPunctBad (d : String) : Bool := punctuationChars.contains (pyLastD d)

/-- Auth quoting predicate: a value other than `No` not wrapped in
backticks on both sides. -/
def authBacktickBad (a : String) : Bool :=
  a != "No" && (!(pyStartsWith a "`") || !(pyEndsWith a "`"))

/-- Auth enumeration predicate: after deleting backticks the value is not
one of the allowed keys. -/
def authEnumBad (a : String) : Bool := !(authKeys.contains (pyReplaceAll a '`'))

/-- HTTPS enumeration predicate. -/
def httpsBad (h : String) : Bool := !(httpsKeys.contains h)

/-- CORS enumeration predicate. -/
def corsBad (c : String) : Bool := !(corsKeys.contains c)

/-- Link markup predicate. -/
def linkBad (l : String) : Bool :=
  !(pyStartsWith l "[Go!](http") || !(pyEndsWith l ")")

/-- The section name `check_alphabetical` derives from a header line:
`line.split('###')[1].strip()` (total version, for the structural parse). -/
def headerName (line : String) : String := pyStrip ((pySplitAnchor line).getD 1 "")

/-- The uppercased title `check_alphabetical` derives from a row line
(total version, for the structural parse). -/
def rowTitleUpper (line : String) : String := pyUpper (pyStrip ((rowCells line).getD 0 ""))

/-- Append a title to the most recently opened section of a structural
parse; a row before any header is dropped. -/
def appendToLast (t : String) :
    List (Nat × String × List String) → List (Nat × String × List String)
  | [] => []
  | [(p, n, ts)] => [(p, n, ts ++ [t])]
  | x :: y :: rest => x :: appendToLast t (y :: rest)

/-- The single structural parse the spec describes: sections in document
order, each as (header line number, name, uppercased titles of its rows in
document order); the most recent header wins and a row before any header
belongs to no section. -/
def specScan (acc : List (Nat × String × List String)) (lineNum : Nat) :
    List String → List (Nat × String × List String)
  | [] => acc
  | line :: rest =>
      if pyStartsWith line anchorStr then
        specScan (acc ++ [(lineNum, headerName line, [])]) (lineNum + 1) rest
      else if !(pyStartsWith line "|") || pyStartsWith line "|---" then
        specScan acc (lineNum + 1) rest
      else specScan (appendToLast (rowTitleUpper line) acc) (lineNum + 1) rest

/-- The sections of a document, per the spec's boundary rule. -/
def specSections (lines : List String) : List (Nat × String × List String) :=
  specScan [] 0 lines

/-- The alphabetical error a section contributes, if any. -/
def alphaEmitF (x : Nat × String × List String) : Option Err :=
  if pySorted x.2.2 = x.2.2 then none
  else some (mkErr .alphabetical x.1 (alphaMsg x.2.1))

/-- Name component of a structural-parse section. -/
def secName (x : Nat × String × List String) : String := x.2.1

/-- Projection of a structural-parse section to a `sections` dict entry. -/
def secPair (x : Nat × String × List String) : String × List String := (x.2.1, x.2.2)

/-- Projection of a structural-parse section to a `section_line_num`
dict entry. -/
def lnPair (x : Nat × String × List String) : String × Nat := (x.2.1, x.1)

/-- A line the scanners skip: neither header nor table row. -/
def skipLine (line : String) : Prop :=
  pyStartsWith line anchorStr = false ∧
    (pyStartsWith line "|" = false ∨ pyStartsWith line "|---" = true)

/-
  Shared lemmas.
-/

/-- An element of a conditional singleton is that singleton's element, and
the condition holds. -/
theorem mem_ite_single {P : Prop} [Decidable P] {e x : Err}
    (h : e ∈ (if P then [x] else [])) : e = x ∧ P := by
  by_cases hp : P
  · simp [hp] at h; exact ⟨h, hp⟩
  · simp [hp] at h

/-- A nonempty string has nonempty character data. -/
theorem str_ne_data {s : String} (h : s ≠ "") : s.data ≠ [] := by
  intro hd
  apply h
  cases s
  simp only at hd
  subst hd
  rfl

/-- A line starting with the row delimiter does not start with the anchor. -/
theorem row_not_header {line : String} (h : pyStartsWith line "|" = true) :
    pyStartsWith line anchorStr = false := by
  unfold pyStartsWith at *
  cases hl : line.data with
  | nil => rw [hl] at h; simp [List.isPrefixOf] at h
  | cons x xs =>
      rw [hl] at h
      simp [List.isPrefixOf] at h
      subst h
      simp [List.isPrefixOf, anchorStr]

/-- On a row with at least six cells and a nonempty description,
`check_entry` returns exactly the violated checks, in source order. -/
theorem check_entry_ok (ln : Nat) (t d a h c l : String) (rest : List String)
    (hd : d ≠ "") :
    check_entry ln (t :: d :: a :: h :: c :: l :: rest) = .ok
      ((if titleBad t then [mkErr .title ln titleMsg] else []) ++
       (if descCapBad d then [mkErr .descCap ln descCapMsg] else []) ++
       (if descPunctBad d then [mkErr .descPunct ln (descPunctMsg (pyLastD d))] else []) ++
       (if authBacktickBad a then [mkErr .authBacktick ln authBacktickMsg] else []) ++
       (if authEnumBad a then [mkErr .authEnum ln (authEnumMsg a)] else []) ++
       (if httpsBad h then [mkErr .httpsEnum ln (httpsEnumMsg h)] else []) ++
       (if corsBad c then [mkErr .corsEnum ln (corsEnumMsg c)] else []) ++
       (if linkBad l then [mkErr .linkSyntax ln linkMsg] else [])) := by
  have hdata : d.data ≠ [] := str_ne_data hd
  obtain ⟨c0, cs, hcons⟩ : ∃ c0 cs, d.data = c0 :: cs := by
    cases hx : d.data with
    | nil => exact absurd hx hdata
    | cons x xs => exact ⟨x, xs, rfl⟩
  rcases List.eq_nil_or_concat d.data with hnil | ⟨L, b, hcat⟩
  · exact absurd hnil hdata
  · simp only [List.concat_eq_append] at hcat
    have h0 : pyIdx (t :: d :: a :: h :: c :: l :: rest) 0 = .ok t := rfl
    have h1 : pyIdx (t :: d :: a :: h :: c :: l :: rest) 1 = .ok d := rfl
    have h2 : pyIdx (t :: d :: a :: h :: c :: l :: rest) 2 = .ok a := rfl
    have h3 : pyIdx (t :: d :: a :: h :: c :: l :: rest) 3 = .ok h := rfl
    have h4 : pyIdx (t :: d :: a :: h :: c :: l :: rest) 4 = .ok c := rfl
    have h5 : pyIdx (t :: d :: a :: h :: c :: l :: rest) 5 = .ok l := rfl
    have hf : strFirst d = .ok c0 := by unfold strFirst; rw [hcons]
    have hlst : strLast d = .ok b := by unfold strLast; rw [hcat, List.getLast?_concat]
    have hfd : pyFirstD d = c0 := by unfold pyFirstD; rw [hcons]; rfl
    have hld : pyLastD d = b := by
      unfold pyLastD
      rw [hcat]
      simp [List.getLastD_eq_getLast?, List.getLast?_concat]
    simp only [check_entry, h0, h1, h2, h3, h4, h5, hf, hlst]
    simp only [titleBad, descCapBad, descPunctBad, authBacktickBad, authEnumBad,
      httpsBad, corsBad, linkBad, hfd, hld]

/-- A row whose description cell is the empty string makes `check_entry`
raise `IndexError`. -/
theorem check_entry_err_desc (ln : Nat) (segs : List String)
    (h1 : segs.get? 1 = some "") : check_entry ln segs = .error .indexError := by
  rcases segs with _ | ⟨t, _ | ⟨d, rest⟩⟩
  · simp at h1
  · simp at h1
  · simp at h1
    subst h1
    have ha : pyIdx (t :: "" :: rest) 0 = .ok t := rfl
    have hb : pyIdx (t :: "" :: rest) 1 = .ok "" := rfl
    have hc : strFirst "" = .error .indexError := rfl
    simp only [check_entry, ha, hb, hc]

/-- A row with fewer than six cells makes `check_entry` raise
`IndexError`. -/
theorem check_entry_err_short (ln : Nat) (segs : List String)
    (h6 : segs.length < 6) : check_entry ln segs = .error .indexError := by
  rcases segs with _ | ⟨t, _ | ⟨d, _ | ⟨a, _ | ⟨h, _ | ⟨c, _ | ⟨l, rest⟩⟩⟩⟩⟩⟩
  · rfl
  · rfl
  · by_cases hd : d = ""
    · subst hd; rfl
    · obtain ⟨c0, cs, hcons⟩ : ∃ c0 cs, d.data = c0 :: cs := by
        cases hx : d.data with
        | nil => exact absurd hx (str_ne_data hd)
        | cons x xs => exact ⟨x, xs, rfl⟩
      rcases List.eq_nil_or_concat d.data with hnil | ⟨L, b, hcat⟩
      · exact absurd hnil (str_ne_data hd)
      · simp only [List.concat_eq_append] at hcat
        have hf : strFirst d = .ok c0 := by unfold strFirst; rw [hcons]
        have hlst : strLast d = .ok b := by unfold strLast; rw [hcat, List.getLast?_concat]
        have hx : pyIdx [t, d] 2 = .error .indexError := rfl
        simp only [check_entry, pyIdx, List.get?, hf, hlst, hx]
  · by_cases hd : d = ""
    · subst hd; rfl
    · obtain ⟨c0, cs, hcons⟩ : ∃ c0 cs, d.data = c0 :: cs := by
        cases hx : d.data with
        | nil => exact absurd hx (str_ne_data hd)
        | cons x xs => exact ⟨x, xs, rfl⟩
      rcases List.eq_nil_or_concat d.data with hnil | ⟨L, b, hcat⟩
      · exact absurd hnil (str_ne_data hd)
      · simp only [List.concat_eq_append] at hcat
        have hf : strFirst d = .ok c0 := by unfold strFirst; rw [hcons]
        have hlst : strLast d = .ok b := by unfold strLast; rw [hcat, List.getLast?_concat]
        have hx : pyIdx [t, d, a] 3 = .error .indexError := rfl
        simp only [check_entry, pyIdx, List.get?, hf, hlst, hx]
  · by_cases hd : d = ""
    · subst hd; rfl
    · obtain ⟨c0, cs, hcons⟩ : ∃ c0 cs, d.data = c0 :: cs := by
        cases hx : d.data with
        | nil => exact absurd hx (str_ne_data hd)
        | cons x xs => exact ⟨x, xs, rfl⟩
      rcases List.eq_nil_or_concat d.data with hnil | ⟨L, b, hcat⟩
      · exact absurd hnil (str_ne_data hd)
      · simp only [List.concat_eq_append] at hcat
        have hf : strFirst d = .ok c0 := by unfold strFirst; rw [hcons]
        have hlst : strLast d = .ok b := by unfold strLast; rw [hcat, List.getLast?_concat]
        have hx : pyIdx [t, d, a, h] 4 = .error .indexError := rfl
        simp only [check_entry, pyIdx, List.get?, hf, hlst, hx]
  · by_cases hd : d = ""
    · subst hd; rfl
    · obtain ⟨c0, cs, hcons⟩ : ∃ c0 cs, d.data = c0 :: cs := by
        cases hx : d.data with
        | nil => exact absurd hx (str_ne_data hd)
        | cons x xs => exact ⟨x, xs, rfl⟩
      rcases List.eq_nil_or_concat d.data with hnil | ⟨L, b, hcat⟩
      · exact absurd hnil (str_ne_data hd)
      · simp only [List.concat_eq_append] at hcat
        have hf : strFirst d = .ok c0 := by unfold strFirst; rw [hcons]
        have hlst : strLast d = .ok b := by unfold strLast; rw [hcat, List.getLast?_concat]
        have hx : pyIdx [t, d, a, h, c] 5 = .error .indexError := rfl
        simp only [check_entry, pyIdx, List.get?, hf, hlst, hx]
  · simp only [List.length_cons] at h6
    omega

/-- A successful `check_entry` forces at least six cells and a nonempty
description. -/
theorem check_entry_ok_shape (ln : Nat) (segs : List String) (errs : List Err)
    (h : check_entry ln segs = .ok errs) :
    ∃ t d a hh c l rest, segs = t :: d :: a :: hh :: c :: l :: rest ∧ d ≠ "" := by
  by_cases h6 : segs.length < 6
  · rw [check_entry_err_short ln segs h6] at h
    simp at h
  · push_neg at h6
    rcases segs with _ | ⟨t, _ | ⟨d, _ | ⟨a, _ | ⟨hh, _ | ⟨c, _ | ⟨l, rest⟩⟩⟩⟩⟩⟩ <;>
      simp only [List.length_cons, List.length_nil] at h6 <;> try omega
    by_cases hd : d = ""
    · subst hd
      rw [check_entry_err_desc ln (t :: "" :: a :: hh :: c :: l :: rest) rfl] at h
      simp at h
    · exact ⟨t, d, a, hh, c, l, rest, rfl, hd⟩

/-- Errors produced by `check_entry` are field errors: never the
minimum-count, alphabetical or header-shape kind. -/
theorem check_entry_kinds (ln : Nat) (segs : List String) (errs : List Err)
    (h : check_entry ln segs = .ok errs) :
    ∀ e ∈ errs, e.kind ≠ .minCount ∧ e.kind ≠ .alphabetical ∧ e.kind ≠ .headerFormat := by
  obtain ⟨t, d, a, hh, c, l, rest, hshape, hd⟩ := check_entry_ok_shape ln segs errs h
  subst hshape
  rw [check_entry_ok ln t d a hh c l rest hd] at h
  simp only [Except.ok.injEq] at h
  subst h
  intro e he
  simp only [List.mem_append] at he
  rcases he with ((((((he | he) | he) | he) | he) | he) | he) | he <;>
    (obtain ⟨rfl, -⟩ := mem_ite_single he; refine ⟨?_, ?_, ?_⟩ <;> simp [mkErr])

/-- A line the scanners skip leaves the entry-checking state unchanged and
emits nothing. -/
theorem fmtStep_skip (st : FmtState) (ln : Nat) (line : String) (h : skipLine line) :
    fmtStep st ln line = .ok (st, []) := by
  obtain ⟨h1, h2⟩ := h
  unfold fmtStep
  rw [h1]
  rcases h2 with h2 | h2 <;> simp [h2]

/-- On a header line whose `split(' ')` has a second field, the step resets
the state and emits the header-shape error and previous-section count error
as needed. -/
theorem fmtStep_header_ok (st : FmtState) (ln : Nat) (line : String) (cat : String)
    (hh : pyStartsWith line anchorStr = true)
    (hp : pyIdx (pySplitChar line ' ') 1 = .ok cat) :
    fmtStep st ln line = .ok (⟨0, cat, ln⟩,
      (if !reMatchAnchor line then [mkErr .headerFormat ln headerFmtMsg] else []) ++
        (if st.numInCategory < minEntriesPerSection then
          [mkErr .minCount st.categoryLine (countMsg st.category st.numInCategory)]
         else [])) := by
  unfold fmtStep
  rw [hh, if_pos rfl, hp]

/-- On a header line with no second `split(' ')` field, the step raises. -/
theorem fmtStep_header_err (st : FmtState) (ln : Nat) (line : String) (e : PyExc)
    (hh : pyStartsWith line anchorStr = true)
    (hp : pyIdx (pySplitChar line ' ') 1 = .error e) :
    fmtStep st ln line = .error e := by
  unfold fmtStep
  rw [hh, if_pos rfl, hp]

/-- On a header line, a successful step resets the state and emits the
header-shape error and previous-section count error as needed. -/
theorem fmtStep_header (st : FmtState) (ln : Nat) (line : String) (st2 : FmtState)
    (errs : List Err) (hh : pyStartsWith line anchorStr = true)
    (h : fmtStep st ln line = .ok (st2, errs)) :
    ∃ cat, pyIdx (pySplitChar line ' ') 1 = .ok cat ∧ st2 = ⟨0, cat, ln⟩ ∧
      errs = (if !reMatchAnchor line then [mkErr .headerFormat ln headerFmtMsg] else []) ++
        (if st.numInCategory < minEntriesPerSection then
          [mkErr .minCount st.categoryLine (countMsg st.category st.numInCategory)]
         else []) := by
  cases hp : pyIdx (pySplitChar line ' ') 1 with
  | error e => rw [fmtStep_header_err st ln line e hh hp] at h; simp at h
  | ok cat =>
      rw [fmtStep_header_ok st ln line cat hh hp] at h
      simp only [Except.ok.injEq, Prod.mk.injEq] at h
      exact ⟨cat, rfl, h.1.symm, h.2.symm⟩

/-- On a table-row line, the step counts the row, emits the spacing errors
in cell order, then the field errors of `check_entry`. -/
theorem fmtStep_row (st : FmtState) (ln : Nat) (line : String)
    (h0 : pyStartsWith line anchorStr = false) (h1 : pyStartsWith line "|" = true)
    (h2 : pyStartsWith line "|---" = false) :
    fmtStep st ln line =
      match check_entry ln ((rowCells line).map pyStrip) with
      | .error e => .error e
      | .ok es => .ok (⟨st.numInCategory + 1, st.category, st.categoryLine⟩,
          (rowCells line).filterMap (fun seg =>
            if spacingBad seg then some (mkErr .spacing ln spacingMsg) else none) ++ es) := by
  unfold fmtStep
  rw [h0, h1, h2]
  simp

/-- A step on a non-header line keeps the section context, never shrinks
the row counter, and emits only row-level errors. -/
theorem fmtStep_nonheader (st : FmtState) (ln : Nat) (line : String) (st2 : FmtState)
    (errs : List Err) (h0 : pyStartsWith line anchorStr = false)
    (h : fmtStep st ln line = .ok (st2, errs)) :
    st2.category = st.category ∧ st2.categoryLine = st.categoryLine ∧
      st.numInCategory ≤ st2.numInCategory ∧
      ∀ e ∈ errs, e.kind ≠ .minCount ∧ e.kind ≠ .alphabetical ∧ e.kind ≠ .headerFormat := by
  by_cases hrow : pyStartsWith line "|" = true ∧ pyStartsWith line "|---" = false
  · obtain ⟨h1, h2⟩ := hrow
    rw [fmtStep_row st ln line h0 h1 h2] at h
    cases hce : check_entry ln ((rowCells line).map pyStrip) with
    | error e => rw [hce] at h; simp at h
    | ok es =>
        rw [hce] at h
        simp only [Except.ok.injEq, Prod.mk.injEq] at h
        obtain ⟨hst, herrs⟩ := h
        subst hst
        refine ⟨rfl, rfl, Nat.le_succ _, ?_⟩
        intro e he
        rw [← herrs] at he
        simp only [List.mem_append] at he
        rcases he with he | he
        · obtain ⟨seg, -, hseg⟩ := List.mem_filterMap.mp he
          by_cases hs : spacingBad seg = true
          · rw [if_pos hs] at hseg
            cases hseg
            refine ⟨?_, ?_, ?_⟩ <;> simp [mkErr]
          · rw [if_neg hs] at hseg; cases hseg
        · exact check_entry_kinds ln _ es hce e he
  · have hsk : skipLine line := by
      refine ⟨h0, ?_⟩
      cases hq : pyStartsWith line "|" with
      | false => exact Or.inl rfl
      | true =>
          cases hb : pyStartsWith line "|---" with
          | false => exact absurd ⟨hq, hb⟩ hrow
          | true => exact Or.inr rfl
    rw [fmtStep_skip st ln line hsk] at h
    simp only [Except.ok.injEq, Prod.mk.injEq] at h
    obtain ⟨hst, herrs⟩ := h
    subst hst
    rw [← herrs]
    exact ⟨rfl, rfl, Nat.le_refl _, by intro e he; simp at he⟩

/-- Unfolding `fmtScan` one line: the step raised. -/
theorem fmtScan_cons_err (st : FmtState) (ln : Nat) (x : String) (rest : List String)
    (e : PyExc) (h : fmtStep st ln x = .error e) :
    fmtScan st ln (x :: rest) = .error e := by
  simp only [fmtScan]
  rw [h]

/-- Unfolding `fmtScan` one line: the step succeeded. -/
theorem fmtScan_cons_ok (st : FmtState) (ln : Nat) (x : String) (rest : List String)
    (st1 : FmtState) (e1 : List Err) (h : fmtStep st ln x = .ok (st1, e1)) :
    fmtScan st ln (x :: rest) =
      match fmtScan st1 (ln + 1) rest with
      | .error e => .error e
      | .ok (st3, more) => .ok (st3, e1 ++ more) := by
  simp only [fmtScan]
  rw [h]

/-- A successful `fmtScan` over a concatenation decomposes into successful
scans of the parts, with the errors concatenated. -/
theorem fmtScan_append_ok (xs ys : List String) (st : FmtState) (ln : Nat)
    (stF : FmtState) (errs : List Err) (h : fmtScan st ln (xs ++ ys) = .ok (stF, errs)) :
    ∃ st2 e1 e2, fmtScan st ln xs = .ok (st2, e1) ∧
      fmtScan st2 (ln + xs.length) ys = .ok (stF, e2) ∧ errs = e1 ++ e2 := by
  induction xs generalizing st ln errs with
  | nil => exact ⟨st, [], errs, rfl, by simpa using h, by simp⟩
  | cons x xs ih =>
      rw [List.cons_append] at h
      cases hstep : fmtStep st ln x with
      | error e => rw [fmtScan_cons_err st ln x _ e hstep] at h; simp at h
      | ok p =>
          obtain ⟨st1, e1⟩ := p
          rw [fmtScan_cons_ok st ln x _ st1 e1 hstep] at h
          cases hrest : fmtScan st1 (ln + 1) (xs ++ ys) with
          | error e => rw [hrest] at h; simp at h
          | ok q =>
              obtain ⟨st2, e2⟩ := q
              rw [hrest] at h
              simp only [Except.ok.injEq, Prod.mk.injEq] at h
              obtain ⟨hst, herrs⟩ := h
              subst hst
              obtain ⟨stm, f1, f2, hx1, hx2, hcat⟩ := ih st1 (ln + 1) e2 hrest
              refine ⟨stm, e1 ++ f1, f2, ?_, ?_, ?_⟩
              · rw [fmtScan_cons_ok st ln x xs st1 e1 hstep, hx1]
              · have harith : ln + 1 + xs.length = ln + (x :: xs).length := by
                  simp only [List.length_cons]; omega
                rw [harith] at hx2
                exact hx2
              · rw [← herrs, hcat, List.append_assoc]

/-- `fmtScan` over lines that are all skipped emits nothing and keeps the
state. -/
theorem fmtScan_skips (xs : List String) (st : FmtState) (ln : Nat)
    (h : ∀ l ∈ xs, skipLine l) : fmtScan st ln xs = .ok (st, []) := by
  induction xs generalizing ln with
  | nil => rfl
  | cons x xs ih =>
      rw [fmtScan_cons_ok st ln x xs st [] (fmtStep_skip st ln x (h x (by simp)))]
      rw [ih (ln + 1) (fun l hl => h l (by simp [hl]))]
      rfl

/-- `fmtScan` over header-free lines keeps the section context, never
shrinks the row counter, and emits only row-level errors. -/
theorem fmtScan_noheader (xs : List String) (st : FmtState) (ln : Nat) (stF : FmtState)
    (errs : List Err) (h0 : ∀ l ∈ xs, pyStartsWith l anchorStr = false)
    (hs : fmtScan st ln xs = .ok (stF, errs)) :
    stF.category = st.category ∧ stF.categoryLine = st.categoryLine ∧
      st.numInCategory ≤ stF.numInCategory ∧
      ∀ e ∈ errs, e.kind ≠ .minCount ∧ e.kind ≠ .alphabetical ∧ e.kind ≠ .headerFormat := by
  induction xs generalizing st ln errs with
  | nil =>
      simp only [fmtScan, Except.ok.injEq, Prod.mk.injEq] at hs
      obtain ⟨hst, herrs⟩ := hs
      subst hst
      rw [← herrs]
      exact ⟨rfl, rfl, Nat.le_refl _, by intro e he; simp at he⟩
  | cons x xs ih =>
      cases hstep : fmtStep st ln x with
      | error e => rw [fmtScan_cons_err st ln x xs e hstep] at hs; simp at hs
      | ok p =>
          obtain ⟨st1, e1⟩ := p
          rw [fmtScan_cons_ok st ln x xs st1 e1 hstep] at hs
          cases hrest : fmtScan st1 (ln + 1) xs with
          | error e => rw [hrest] at hs; simp at hs
          | ok q =>
              obtain ⟨st2, e2⟩ := q
              rw [hrest] at hs
              simp only [Except.ok.injEq, Prod.mk.injEq] at hs
              obtain ⟨hst, herrs⟩ := hs
              subst hst
              obtain ⟨hc1, hl1, hn1, hk1⟩ :=
                fmtStep_nonheader st ln x st1 e1 (h0 x (by simp)) hstep
              obtain ⟨hc2, hl2, hn2, hk2⟩ :=
                ih st1 (ln + 1) e2 (fun l hl => h0 l (by simp [hl])) hrest
              refine ⟨hc2.trans hc1, hl2.trans hl1, Nat.le_trans hn1 hn2, ?_⟩
              intro e he
              rw [← herrs] at he
              simp only [List.mem_append] at he
              rcases he with he | he
              · exact hk1 e he
              · exact hk2 e he

/-- One step preserves the attribution invariant: whenever the row counter
has been reset by some header, `categoryLine` points strictly before the
current line; count errors emitted at this line point strictly before it. -/
theorem fmtStep_inv (st : FmtState) (ln : Nat) (line : String) (st2 : FmtState)
    (errs : List Err)
    (hinv : st.numInCategory < minEntriesPerSection + 1 → st.categoryLine < ln)
    (h : fmtStep st ln line = .ok (st2, errs)) :
    (st2.numInCategory < minEntriesPerSection + 1 → st2.categoryLine < ln + 1) ∧
      ∀ e ∈ errs, e.kind = .minCount → e.lineNum < ln := by
  cases hh : pyStartsWith line anchorStr with
  | true =>
      obtain ⟨cat, hp, hst2, herrs⟩ := fmtStep_header st ln line st2 errs hh h
      constructor
      · intro _
        rw [hst2]
        exact Nat.lt_succ_self ln
      · intro e he hk
        rw [herrs] at he
        simp only [List.mem_append] at he
        rcases he with he | he
        · obtain ⟨rfl, -⟩ := mem_ite_single he
          simp [mkErr] at hk
        · obtain ⟨rfl, hcnt⟩ := mem_ite_single he
          have : st.categoryLine < ln := hinv (by omega)
          simpa [mkErr] using this
  | false =>
      obtain ⟨-, hl1, hn1, hk1⟩ := fmtStep_nonheader st ln line st2 errs hh h
      constructor
      · intro hlt
        rw [hl1]
        have := hinv (by omega)
        omega
      · intro e he hk
        exact absurd hk (hk1 e he).1

/-- Over any scanned segment, count errors point strictly before the lines
scanned so far, and the attribution invariant is maintained. -/
theorem fmtScan_inv (xs : List String) (st : FmtState) (ln : Nat) (stF : FmtState)
    (errs : List Err)
    (hinv : st.numInCategory < minEntriesPerSection + 1 → st.categoryLine < ln)
    (h : fmtScan st ln xs = .ok (stF, errs)) :
    (stF.numInCategory < minEntriesPerSection + 1 → stF.categoryLine < ln + xs.length) ∧
      ∀ e ∈ errs, e.kind = .minCount → e.lineNum < ln + xs.length := by
  induction xs generalizing st ln errs with
  | nil =>
      simp only [fmtScan, Except.ok.injEq, Prod.mk.injEq] at h
      obtain ⟨hst, herrs⟩ := h
      subst hst
      rw [← herrs]
      exact ⟨by simpa using hinv, by intro e he; simp at he⟩
  | cons x xs ih =>
      cases hstep : fmtStep st ln x with
      | error e => rw [fmtScan_cons_err st ln x xs e hstep] at h; simp at h
      | ok p =>
          obtain ⟨st1, e1⟩ := p
          rw [fmtScan_cons_ok st ln x xs st1 e1 hstep] at h
          cases hrest : fmtScan st1 (ln + 1) xs with
          | error e => rw [hrest] at h; simp at h
          | ok q =>
              obtain ⟨st2, e2⟩ := q
              rw [hrest] at h
              simp only [Except.ok.injEq, Prod.mk.injEq] at h
              obtain ⟨hst, herrs⟩ := h
              subst hst
              obtain ⟨hinv1, hk1⟩ := fmtStep_inv st ln x st1 e1 hinv hstep
              obtain ⟨hinv2, hk2⟩ := ih st1 (ln + 1) e2 hinv1 hrest
              have hlen : ln + 1 + xs.length = ln + (x :: xs).length := by
                simp only [List.length_cons]; omega
              refine ⟨by rw [← hlen]; exact hinv2, ?_⟩
              intro e he hk
              rw [← herrs] at he
              simp only [List.mem_append] at he
              rcases he with he | he
              · have := hk1 e he hk
                simp only [List.length_cons]
                omega
              · have := hk2 e he hk
                omega

/-- A skipped line leaves the alphabetical-scan state unchanged. -/
theorem alphaStep_skip (st : AlphaState) (ln : Nat) (line : String) (h : skipLine line) :
    alphaStep st ln line = .ok st := by
  obtain ⟨h1, h2⟩ := h
  unfold alphaStep
  rw [h1]
  rcases h2 with h2 | h2 <;> simp [h2]

/-- The alphabetical scan over lines that are all skipped keeps the
state. -/
theorem alphaScan_skips (xs : List String) (st : AlphaState) (ln : Nat)
    (h : ∀ l ∈ xs, skipLine l) : alphaScan st ln xs = .ok st := by
  induction xs generalizing ln with
  | nil => rfl
  | cons x xs ih =>
      simp only [alphaScan]
      rw [alphaStep_skip st ln x (h x (by simp))]
      exact ih (ln + 1) (fun l hl => h l (by simp [hl]))

/-- Every error the alphabetical emission loop produces carries the
alphabetical kind. -/
theorem alphaEmit_kinds (secs : List (String × List String))
    (lineNums : List (String × Nat)) (errs : List Err)
    (h : alphaEmit lineNums secs = .ok errs) :
    ∀ e ∈ errs, e.kind = .alphabetical := by
  induction secs generalizing errs with
  | nil =>
      simp only [alphaEmit, Except.ok.injEq] at h
      rw [← h]
      intro e he
      simp at he
  | cons p rest ih =>
      obtain ⟨cat, entries⟩ := p
      simp only [alphaEmit] at h
      by_cases hsorted : pySorted entries = entries
      · rw [if_pos hsorted] at h
        exact ih errs h
      · rw [if_neg hsorted] at h
        cases hg : dictGet lineNums cat with
        | error e => rw [hg] at h; simp at h
        | ok lnc =>
            rw [hg] at h
            cases hrest : alphaEmit lineNums rest with
            | error e => rw [hrest] at h; simp at h
            | ok more =>
                rw [hrest] at h
                simp only [Except.ok.injEq] at h
                rw [← h]
                intro e he
                rcases List.mem_cons.mp he with rfl | he2
                · rfl
                · exact ih more hrest e he2

/-- Helper: under a prefix of skipped lines, the alphabetical scan reaches
the rest with the initial state. -/
theorem alphaScan_skips_append (xs ys : List String) (st : AlphaState) (ln : Nat)
    (h : ∀ l ∈ xs, skipLine l) :
    alphaScan st ln (xs ++ ys) = alphaScan st (ln + xs.length) ys := by
  induction xs generalizing ln with
  | nil => simp
  | cons x xs ih =>
      rw [List.cons_append]
      simp only [alphaScan]
      rw [alphaStep_skip st ln x (h x (by simp))]
      show alphaScan st (ln + 1) (xs ++ ys) = alphaScan st (ln + (x :: xs).length) ys
      rw [ih (ln + 1) (fun l hl => h l (by simp [hl]))]
      congr 1
      simp only [List.length_cons]
      omega

/-- C4: the example row produces exactly the five claimed errors — Title,
description capitalization, description punctuation, Auth quoting, HTTPS
enumeration — all attributed to its own line, and no others. -/
theorem c4_cat_facts_row (n cl : Nat) (c : String) (ln : Nat) :
    fmtStep ⟨n, c, cl⟩ ln
      "| Cat Facts API | daily cat facts. | apiKey | Maybe | Unknown | [Go!](http://x) |" =
      .ok (⟨n + 1, c, cl⟩,
        [mkErr .title ln titleMsg,
         mkErr .descCap ln descCapMsg,
         mkErr .descPunct ln (descPunctMsg '.'),
         mkErr .authBacktick ln authBacktickMsg,
         mkErr .httpsEnum ln (httpsEnumMsg "Maybe")]) := by
  rfl

/-- C1 counterexample: the header `### Two Words` does not have the claimed
shape (one token, nothing after), yet the scanner emits no error for it,
because `re.match` only anchors at the start of the line. -/
theorem c1_counterexample :
    pyStartsWith "### Two Words" anchorStr = true ∧
      specHeaderForm "### Two Words" = false ∧
      fmtStep ⟨minEntriesPerSection + 1, "", 0⟩ 0 "### Two Words" =
        .ok (⟨0, "Two", 0⟩, []) :=
  ⟨rfl, rfl, rfl⟩

/-- C1 (amended): for a line starting with the anchor, the header-shape
error is emitted for that line iff the line does not begin with the anchor
followed by one whitespace character and a non-whitespace character —
trailing text after the first token is accepted. -/
theorem c1_header_error_iff (st : FmtState) (ln : Nat) (line : String) (st2 : FmtState)
    (errs : List Err) (hh : pyStartsWith line anchorStr = true)
    (h : fmtStep st ln line = .ok (st2, errs)) :
    mkErr .headerFormat ln headerFmtMsg ∈ errs ↔ reMatchAnchor line = false := by
  obtain ⟨cat, hp, hst2, herrs⟩ := fmtStep_header st ln line st2 errs hh h
  subst herrs
  constructor
  · intro hmem
    simp only [List.mem_append] at hmem
    rcases hmem with hm | hm
    · obtain ⟨-, hcond⟩ := mem_ite_single hm
      simpa using hcond
    · obtain ⟨heq, -⟩ := mem_ite_single hm
      simp [mkErr] at heq
  · intro hno
    simp only [List.mem_append]
    left
    rw [if_pos (by simp [hno])]
    simp

/-- Witness for C1 (amended): at the malformed header `###  X` the error is
emitted. -/
theorem c1_header_error_iff_witness :
    mkErr .headerFormat 0 headerFmtMsg ∈ [mkErr .headerFormat 0 headerFmtMsg] :=
  (c1_header_error_iff ⟨minEntriesPerSection + 1, "", 0⟩ 0 "###  X" ⟨0, "", 0⟩
    [mkErr .headerFormat 0 headerFmtMsg] rfl rfl).mpr rfl

/-- C2 counterexample: a document consisting of one table row and no header
makes the alphabetical pass raise `UnboundLocalError` — the row is not
skipped, and the pass does not complete (the row-free document does). -/
theorem c2_counterexample :
    check_alphabetical ["| A | x |"] = .error .unboundLocalError ∧
      check_alphabetical [] = .ok [] :=
  ⟨rfl, rfl⟩

/-- C2 (amended): a table row that appears before any section header makes
`check_alphabetical` raise `UnboundLocalError` (the local `category` is
read before assignment); the pass does not complete. -/
theorem c2_row_before_header_raises (pre : List String) (row : String) (rest : List String)
    (hpre : ∀ l ∈ pre, skipLine l)
    (h1 : pyStartsWith row "|" = true) (h2 : pyStartsWith row "|---" = false)
    (hc : rowCells row ≠ []) :
    check_alphabetical (pre ++ row :: rest) = .error .unboundLocalError := by
  unfold check_alphabetical
  rw [alphaScan_skips_append pre (row :: rest) ⟨[], [], none⟩ 0 hpre]
  simp only [alphaScan]
  have hstep : alphaStep ⟨[], [], none⟩ (0 + pre.length) row = .error .unboundLocalError := by
    unfold alphaStep
    rw [row_not_header h1, h1, h2]
    obtain ⟨c0, cs, hc0⟩ := List.exists_cons_of_ne_nil hc
    rw [hc0]
    simp [pyIdx]
  rw [hstep]

/-- Witness for C2 (amended): a skipped text line followed by a row. -/
theorem c2_row_before_header_raises_witness :
    check_alphabetical ["text", "| A | x |"] = .error .unboundLocalError :=
  c2_row_before_header_raises ["text"] "| A | x |" []
    (by intro l hl; simp at hl; subst hl; exact ⟨rfl, Or.inl rfl⟩) rfl rfl (by decide)

/-- C5 counterexample: on the row `| X API |  |` the Title check is
violated, yet nothing is reported — the empty description makes the row
validator raise before the row's errors can ever be printed. -/
theorem c5_counterexample :
    titleBad "X API" = true ∧
      fmtStep ⟨minEntriesPerSection + 1, "", 0⟩ 0 "| X API |  |" = .error .indexError :=
  ⟨rfl, rfl⟩

/-- C5 (amended): for every table row with at least six cells and a
nonempty trimmed description, every violated check is reported and the
errors are appended in the fixed order — spacing errors in cell order
first, then Title, Description (capitalization), Description
(punctuation), Auth (quoting), Auth (enumeration), HTTPS, CORS, Link. -/
theorem c5_row_error_order :
    (∀ (ln : Nat) (t d a h c l : String) (rest : List String), d ≠ "" →
        check_entry ln (t :: d :: a :: h :: c :: l :: rest) = .ok
          ((if titleBad t then [mkErr .title ln titleMsg] else []) ++
           (if descCapBad d then [mkErr .descCap ln descCapMsg] else []) ++
           (if descPunctBad d then [mkErr .descPunct ln (descPunctMsg (pyLastD d))] else []) ++
           (if authBacktickBad a then [mkErr .authBacktick ln authBacktickMsg] else []) ++
           (if authEnumBad a then [mkErr .authEnum ln (authEnumMsg a)] else []) ++
           (if httpsBad h then [mkErr .httpsEnum ln (httpsEnumMsg h)] else []) ++
           (if corsBad c then [mkErr .corsEnum ln (corsEnumMsg c)] else []) ++
           (if linkBad l then [mkErr .linkSyntax ln linkMsg] else []))) ∧
    (∀ (st : FmtState) (ln : Nat) (line : String) (es : List Err),
        pyStartsWith line anchorStr = false → pyStartsWith line "|" = true →
        pyStartsWith line "|---" = false →
        check_entry ln ((rowCells line).map pyStrip) = .ok es →
        fmtStep st ln line = .ok (⟨st.numInCategory + 1, st.category, st.categoryLine⟩,
          (rowCells line).filterMap (fun seg =>
            if spacingBad seg then some (mkErr .spacing ln spacingMsg) else none) ++ es)) := by
  constructor
  · intro ln t d a h c l rest hd
    exact check_entry_ok ln t d a h c l rest hd
  · intro st ln line es h0 h1 h2 hce
    rw [fmtStep_row st ln line h0 h1 h2, hce]

/-- Witness for C5 (amended): the example row, in trimmed-cell form. -/
theorem c5_row_error_order_witness :
    check_entry 7 ["Cat Facts API", "daily cat facts.", "apiKey", "Maybe", "Unknown",
      "[Go!](http://x)"] =
      .ok [mkErr .title 7 titleMsg, mkErr .descCap 7 descCapMsg,
           mkErr .descPunct 7 (descPunctMsg '.'), mkErr .authBacktick 7 authBacktickMsg,
           mkErr .httpsEnum 7 (httpsEnumMsg "Maybe")] := by
  have h := c5_row_error_order.1 7 "Cat Facts API" "daily cat facts." "apiKey" "Maybe"
    "Unknown" "[Go!](http://x)" [] (by decide)
  exact h.trans (by rfl)

/-- C6 counterexample: the raw cell `"\tA "` of the row has zero leading
space characters (its left padding is a tab), so the claim demands a
spacing error; the code strips whitespace, counts one character on each
side, and emits nothing (the row produces no errors at all). -/
theorem c6_counterexample :
    (rowCells "|\tA | D | `apiKey` | Yes | Yes | [Go!](http://a) |").headD "" = "\tA " ∧
      specSpacingViolation "\tA " = true ∧
      fmtStep ⟨minEntriesPerSection + 1, "", 0⟩ 0
        "|\tA | D | `apiKey` | Yes | Yes | [Go!](http://a) |" =
        .ok (⟨minEntriesPerSection + 2, "", 0⟩, []) :=
  ⟨rfl, rfl, rfl⟩

/-- C6 (amended): the spacing error fires for a raw cell iff the cell does
not have exactly one leading and one trailing *whitespace* character
(space, tab, CR, LF, FF or VT — what Python `str.strip` removes); on a
table-row line one such error per offending cell is emitted, in cell
order, attributed to the row's line, before the field errors. -/
theorem c6_spacing_characterization :
    (∀ seg : String, spacingBad seg = (leadWsCount seg != 1 || trailWsCount seg != 1)) ∧
    (∀ (st : FmtState) (ln : Nat) (line : String) (es : List Err),
        pyStartsWith line anchorStr = false → pyStartsWith line "|" = true →
        pyStartsWith line "|---" = false →
        check_entry ln ((rowCells line).map pyStrip) = .ok es →
        fmtStep st ln line = .ok (⟨st.numInCategory + 1, st.category, st.categoryLine⟩,
          (rowCells line).filterMap (fun seg =>
            if spacingBad seg then some (mkErr .spacing ln spacingMsg) else none) ++ es)) := by
  constructor
  · intro seg
    have hlen1 : (seg.data.takeWhile pyIsSpace).length +
        (seg.data.dropWhile pyIsSpace).length = seg.data.length := by
      rw [← List.length_append, List.takeWhile_append_dropWhile]
    have hlen2 : (seg.data.reverse.takeWhile pyIsSpace).length +
        (seg.data.reverse.dropWhile pyIsSpace).length = seg.data.length := by
      rw [← List.length_append, List.takeWhile_append_dropWhile, List.length_reverse]
    have h1 : seg.data.length - ((pyLstrip seg).data.length) =
        (seg.data.takeWhile pyIsSpace).length := by
      show seg.data.length - (seg.data.dropWhile pyIsSpace).length = _
      omega
    have h2 : seg.data.length - ((pyRstrip seg).data.length) =
        (seg.data.reverse.takeWhile pyIsSpace).length := by
      show seg.data.length - ((seg.data.reverse.dropWhile pyIsSpace).reverse).length = _
      rw [List.length_reverse]
      omega
    unfold spacingBad leadWsCount trailWsCount
    rw [h1, h2]
  · intro st ln line es h0 h1 h2 hce
    rw [fmtStep_row st ln line h0 h1 h2, hce]

/-- Witness for C6 (amended): a cell with two leading spaces triggers
exactly one spacing error on its row. -/
theorem c6_spacing_characterization_witness :
    fmtStep ⟨minEntriesPerSection + 1, "", 0⟩ 0
      "|  B | D | No | Yes | Yes | [Go!](http) |" =
      .ok (⟨minEntriesPerSection + 2, "", 0⟩, [mkErr .spacing 0 spacingMsg]) := by
  have h := c6_spacing_characterization.2 ⟨minEntriesPerSection + 1, "", 0⟩ 0
    "|  B | D | No | Yes | Yes | [Go!](http) |" [] rfl rfl rfl rfl
  exact h.trans (by rfl)

/-- C9: the row validator is total exactly on at-least-six-cell rows with
a nonempty description; otherwise it raises `IndexError`, and on such a
table-row line the whole scan step raises instead of recording errors. -/
theorem c9_entry_partiality :
    (∀ (ln : Nat) (segs : List String),
        (∃ errs, check_entry ln segs = .ok errs) ↔
          6 ≤ segs.length ∧ segs.getD 1 "" ≠ "") ∧
    (∀ (ln : Nat) (segs : List String), segs.length < 6 ∨ segs.getD 1 "" = "" →
        check_entry ln segs = .error .indexError) ∧
    (∀ (st : FmtState) (ln : Nat) (line : String),
        pyStartsWith line "|" = true → pyStartsWith line "|---" = false →
        (rowCells line).length < 6 ∨ pyStrip ((rowCells line).getD 1 "") = "" →
        fmtStep st ln line = .error .indexError) := by
  have herr : ∀ (ln : Nat) (segs : List String), segs.length < 6 ∨ segs.getD 1 "" = "" →
      check_entry ln segs = .error .indexError := by
    intro ln segs h
    rcases h with h | h
    · exact check_entry_err_short ln segs h
    · by_cases h6 : segs.length < 6
      · exact check_entry_err_short ln segs h6
      · push_neg at h6
        have hsome : segs.get? 1 = some "" := by
          cases hx : segs.get? 1 with
          | none =>
              exfalso
              have := List.get?_eq_none.mp hx
              omega
          | some x =>
              have : segs.getD 1 "" = x := by rw [List.getD_eq_get?, hx]; rfl
              rw [← h, this]
        exact check_entry_err_desc ln segs hsome
  refine ⟨?_, herr, ?_⟩
  · intro ln segs
    constructor
    · rintro ⟨errs, he⟩
      obtain ⟨t, d, a, hh, c, l, rest, rfl, hd⟩ := check_entry_ok_shape ln segs errs he
      refine ⟨by simp only [List.length_cons]; omega, ?_⟩
      simpa using hd
    · rintro ⟨h6, hd⟩
      rcases segs with _ | ⟨t, _ | ⟨d, _ | ⟨a, _ | ⟨hh, _ | ⟨c, _ | ⟨l, rest⟩⟩⟩⟩⟩⟩ <;>
        simp only [List.length_cons, List.length_nil] at h6 <;> try omega
      have hd' : d ≠ "" := by simpa using hd
      exact ⟨_, check_entry_ok ln t d a hh c l rest hd'⟩
  · intro st ln line h1 h2 hbad
    have h0 := row_not_header h1
    rw [fmtStep_row st ln line h0 h1 h2]
    have hce : check_entry ln ((rowCells line).map pyStrip) = .error .indexError := by
      apply herr
      rcases hbad with hb | hb
      · left
        simpa using hb
      · by_cases h6 : (rowCells line).length < 6
        · left
          simpa using h6
        · right
          push_neg at h6
          cases hx : (rowCells line).get? 1 with
          | none =>
              exfalso
              have := List.get?_eq_none.mp hx
              omega
          | some x =>
              have hgd : (rowCells line).getD 1 "" = x := by
                rw [List.getD_eq_get?, hx]; rfl
              rw [List.getD_eq_get?, List.get?_map, hx]
              rw [hgd] at hb
              simp [hb]
    rw [hce]

/-- Witness for C9: a well-formed row is accepted; a one-cell row raises. -/
theorem c9_entry_partiality_witness :
    (∃ errs, check_entry 0 ["T", "D", "No", "Yes", "Yes", "[Go!](http)"] = .ok errs) ∧
      check_entry 0 ["T"] = .error .indexError :=
  ⟨(c9_entry_partiality.1 0 ["T", "D", "No", "Yes", "Yes", "[Go!](http)"]).mpr
      ⟨by decide, by decide⟩,
    c9_entry_partiality.2.1 0 ["T"] (Or.inl (by decide))⟩

/-- C3: the minimum-count error fires only at a header — as exactly one
error carrying the previous section's actual count, attributed to the
previous header's line — never on a non-header line, never before the
first header, and never for the final section (every count error points
strictly before the last header's line). -/
theorem c3_min_count_protocol :
    (∀ (st : FmtState) (ln : Nat) (line : String) (st2 : FmtState) (errs : List Err),
        pyStartsWith line anchorStr = true → fmtStep st ln line = .ok (st2, errs) →
        errs.filter (fun e => decide (e.kind = ErrKind.minCount)) =
          (if st.numInCategory < minEntriesPerSection then
            [mkErr .minCount st.categoryLine (countMsg st.category st.numInCategory)]
           else [])) ∧
    (∀ (st : FmtState) (ln : Nat) (line : String) (st2 : FmtState) (errs : List Err),
        pyStartsWith line anchorStr = false → fmtStep st ln line = .ok (st2, errs) →
        ∀ e ∈ errs, e.kind ≠ .minCount) ∧
    (∀ (pre : List String) (hdr : String) (rest : List String) (errs : List Err),
        (∀ l ∈ pre, pyStartsWith l anchorStr = false) →
        pyStartsWith hdr anchorStr = true →
        check_format_lines (pre ++ hdr :: rest) = .ok errs →
        ∃ e1 e2 e3 st1 st2, fmtScan ⟨minEntriesPerSection + 1, "", 0⟩ 0 pre = .ok (st1, e1) ∧
          fmtStep st1 pre.length hdr = .ok (st2, e2) ∧ errs = e1 ++ e2 ++ e3 ∧
          ∀ e ∈ e1 ++ e2, e.kind ≠ .minCount) ∧
    (∀ (pre : List String) (hdr : String) (post : List String) (errs : List Err),
        pyStartsWith hdr anchorStr = true →
        (∀ l ∈ post, pyStartsWith l anchorStr = false) →
        check_format_lines (pre ++ hdr :: post) = .ok errs →
        ∀ e ∈ errs, e.kind = .minCount → e.lineNum < pre.length) := by
  refine ⟨?_, ?_, ?_, ?_⟩
  · intro st ln line st2 errs hh h
    obtain ⟨cat, hp, hst2, herrs⟩ := fmtStep_header st ln line st2 errs hh h
    rw [herrs, List.filter_append]
    have hleft : (if !reMatchAnchor line then [mkErr .headerFormat ln headerFmtMsg]
        else []).filter (fun e => decide (e.kind = ErrKind.minCount)) = [] := by
      by_cases hr : (!reMatchAnchor line) = true
      · rw [if_pos hr]; simp [mkErr]
      · rw [if_neg hr]; rfl
    rw [hleft, List.nil_append]
    by_cases hc : st.numInCategory < minEntriesPerSection
    · rw [if_pos hc]; simp [mkErr]
    · rw [if_neg hc]; rfl
  · intro st ln line st2 errs hh h
    intro e he
    exact ((fmtStep_nonheader st ln line st2 errs hh h).2.2.2 e he).1
  · intro pre hdr rest errs hpre hh h
    unfold check_format_lines at h
    cases hscan : fmtScan ⟨minEntriesPerSection + 1, "", 0⟩ 0 (pre ++ hdr :: rest) with
    | error e => rw [hscan] at h; simp at h
    | ok p =>
        obtain ⟨stF, allErrs⟩ := p
        rw [hscan] at h
        simp only [Except.ok.injEq] at h
        subst h
        obtain ⟨st1, e1, e23, hx1, hx2, hcat⟩ :=
          fmtScan_append_ok pre (hdr :: rest) _ 0 stF allErrs hscan
        rw [Nat.zero_add] at hx2
        cases hstep : fmtStep st1 pre.length hdr with
        | error e => rw [fmtScan_cons_err st1 pre.length hdr rest e hstep] at hx2; simp at hx2
        | ok q =>
            obtain ⟨st2, e2⟩ := q
            rw [fmtScan_cons_ok st1 pre.length hdr rest st2 e2 hstep] at hx2
            cases hrest : fmtScan st2 (pre.length + 1) rest with
            | error e => rw [hrest] at hx2; simp at hx2
            | ok r =>
                obtain ⟨st3, e3⟩ := r
                rw [hrest] at hx2
                simp only [Except.ok.injEq, Prod.mk.injEq] at hx2
                obtain ⟨-, he23⟩ := hx2
                obtain ⟨hc1, hl1, hn1, hk1⟩ :=
                  fmtScan_noheader pre _ 0 st1 e1 hpre hx1
                obtain ⟨cat, hp, hst2, herrs⟩ :=
                  fmtStep_header st1 pre.length hdr st2 e2 hh hstep
                refine ⟨e1, e2, e3, st1, st2, hx1, hstep, ?_, ?_⟩
                · rw [hcat, ← he23, List.append_assoc]
                · intro e he
                  simp only [List.mem_append] at he
                  rcases he with he | he
                  · exact (hk1 e he).1
                  · rw [herrs] at he
                    have hno : ¬ st1.numInCategory < minEntriesPerSection := by
                      have : minEntriesPerSection + 1 ≤ st1.numInCategory := hn1
                      omega
                    rw [if_neg hno, List.append_nil] at he
                    obtain ⟨rfl, -⟩ := mem_ite_single he
                    simp [mkErr]
  · intro pre hdr post errs hh hpost h
    unfold check_format_lines at h
    cases hscan : fmtScan ⟨minEntriesPerSection + 1, "", 0⟩ 0 (pre ++ hdr :: post) with
    | error e => rw [hscan] at h; simp at h
    | ok p =>
        obtain ⟨stF, allErrs⟩ := p
        rw [hscan] at h
        simp only [Except.ok.injEq] at h
        subst h
        obtain ⟨st1, e1, e23, hx1, hx2, hcat⟩ :=
          fmtScan_append_ok pre (hdr :: post) _ 0 stF allErrs hscan
        rw [Nat.zero_add] at hx2
        have hinv0 : (⟨minEntriesPerSection + 1, "", 0⟩ : FmtState).numInCategory <
            minEntriesPerSection + 1 →
            (⟨minEntriesPerSection + 1, "", 0⟩ : FmtState).categoryLine < 0 := by
          intro hx
          exact absurd hx (lt_irrefl _)
        obtain ⟨hinv1, hb1⟩ := fmtScan_inv pre _ 0 st1 e1 hinv0 hx1
        cases hstep : fmtStep st1 pre.length hdr with
        | error e => rw [fmtScan_cons_err st1 pre.length hdr post e hstep] at hx2; simp at hx2
        | ok q =>
            obtain ⟨st2, e2⟩ := q
            rw [fmtScan_cons_ok st1 pre.length hdr post st2 e2 hstep] at hx2
            cases hrest : fmtScan st2 (pre.length + 1) post with
            | error e => rw [hrest] at hx2; simp at hx2
            | ok r =>
                obtain ⟨st3, e3⟩ := r
                rw [hrest] at hx2
                simp only [Except.ok.injEq, Prod.mk.injEq] at hx2
                obtain ⟨-, he23⟩ := hx2
                have hinv1' : st1.numInCategory < minEntriesPerSection + 1 →
                    st1.categoryLine < pre.length := by
                  intro hx
                  have := hinv1 hx
                  omega
                obtain ⟨-, hb2⟩ := fmtStep_inv st1 pre.length hdr st2 e2 hinv1' hstep
                obtain ⟨-, -, -, hk3⟩ := fmtScan_noheader post st2 (pre.length + 1) st3 e3 hpost hrest
                intro e he hk
                rw [hcat, ← he23] at he
                simp only [List.mem_append] at he
                rcases he with he | he | he
                · have := hb1 e he hk
                  omega
                · exact hb2 e he hk
                · exact absurd hk (hk3 e he).1

/-- Witness for C3: a short section triggers the count error at the next
header; a skipped line, a first header after prose, and a final
under-filled section trigger none. -/
theorem c3_min_count_protocol_witness :
    ([mkErr .minCount 1 (countMsg "Old" 2)].filter
        (fun e => decide (e.kind = ErrKind.minCount)) =
      [mkErr .minCount 1 (countMsg "Old" 2)]) ∧
    (∀ e ∈ ([] : List Err), e.kind ≠ ErrKind.minCount) ∧
    (∃ e1 e2 e3 st1 st2,
        fmtScan ⟨minEntriesPerSection + 1, "", 0⟩ 0 ["text"] = .ok (st1, e1) ∧
        fmtStep st1 1 "### A" = .ok (st2, e2) ∧
        ([] : List Err) = e1 ++ e2 ++ e3 ∧ ∀ e ∈ e1 ++ e2, e.kind ≠ ErrKind.minCount) ∧
    (∀ e ∈ ([] : List Err), e.kind = ErrKind.minCount → e.lineNum < 0) := by
  refine ⟨?_, ?_, ?_, ?_⟩
  · have h := c3_min_count_protocol.1 ⟨2, "Old", 1⟩ 5 "### New" ⟨0, "New", 5⟩
      [mkErr .minCount 1 (countMsg "Old" 2)] rfl rfl
    exact h.trans (by rfl)
  · exact c3_min_count_protocol.2.1 ⟨minEntriesPerSection + 1, "", 0⟩ 0 "text"
      ⟨minEntriesPerSection + 1, "", 0⟩ [] rfl rfl
  · exact c3_min_count_protocol.2.2.1 ["text"] "### A" [] []
      (by intro l hl; simp at hl; subst hl; rfl) rfl rfl
  · exact c3_min_count_protocol.2.2.2 [] "### A"
      ["| B | D | No | Yes | Yes | [Go!](http) |"] [] rfl
      (by intro l hl; simp at hl; subst hl; rfl) rfl

/-- Errors from the alphabetical pass all carry the alphabetical kind. -/
theorem check_alphabetical_kinds (lines : List String) (a : List Err)
    (h : check_alphabetical lines = .ok a) : ∀ e ∈ a, e.kind = .alphabetical := by
  unfold check_alphabetical at h
  cases hs : alphaScan ⟨[], [], none⟩ 0 lines with
  | error e => rw [hs] at h; simp at h
  | ok st =>
      rw [hs] at h
      exact alphaEmit_kinds st.sections st.lineNums a h

/-- One entry-checking step never emits an alphabetical-kind error. -/
theorem fmtStep_kinds (st : FmtState) (ln : Nat) (line : String) (st2 : FmtState)
    (errs : List Err) (h : fmtStep st ln line = .ok (st2, errs)) :
    ∀ e ∈ errs, e.kind ≠ .alphabetical := by
  cases hh : pyStartsWith line anchorStr with
  | true =>
      obtain ⟨cat, hp, hst2, herrs⟩ := fmtStep_header st ln line st2 errs hh h
      intro e he
      rw [herrs] at he
      simp only [List.mem_append] at he
      rcases he with he | he <;>
        (obtain ⟨rfl, -⟩ := mem_ite_single he; simp [mkErr])
  | false =>
      intro e he
      exact ((fmtStep_nonheader st ln line st2 errs hh h).2.2.2 e he).2.1

/-- The entry-checking scan never emits an alphabetical-kind error. -/
theorem fmtScan_kinds (xs : List String) (st : FmtState) (ln : Nat) (stF : FmtState)
    (errs : List Err) (h : fmtScan st ln xs = .ok (stF, errs)) :
    ∀ e ∈ errs, e.kind ≠ .alphabetical := by
  induction xs generalizing st ln errs with
  | nil =>
      simp only [fmtScan, Except.ok.injEq, Prod.mk.injEq] at h
      rw [← h.2]
      intro e he
      simp at he
  | cons x xs ih =>
      cases hstep : fmtStep st ln x with
      | error e => rw [fmtScan_cons_err st ln x xs e hstep] at h; simp at h
      | ok p =>
          obtain ⟨st1, e1⟩ := p
          rw [fmtScan_cons_ok st ln x xs st1 e1 hstep] at h
          cases hrest : fmtScan st1 (ln + 1) xs with
          | error e => rw [hrest] at h; simp at h
          | ok q =>
              obtain ⟨st2, e2⟩ := q
              rw [hrest] at h
              simp only [Except.ok.injEq, Prod.mk.injEq] at h
              obtain ⟨hst, herrs⟩ := h
              subst hst
              intro e he
              rw [← herrs] at he
              simp only [List.mem_append] at he
              rcases he with he | he
              · exact fmtStep_kinds st ln x st1 e1 hstep e he
              · exact ih st1 (ln + 1) e2 hrest e he

/-- C8: without a filename the program prints the usage line and exits 1
without reading the file; with errors it prints one `(L%03d) message` line
per error and exits 1; otherwise it exits 0 silently — in particular on a
document with no sections and no rows. -/
theorem c8_exit_protocol :
    (∀ (argv fileLines : List String), argv.length < 2 →
        run_main argv fileLines = .ok ([usageMsg], 1)) ∧
    (∀ (argv fileLines : List String) (errs : List Err), 2 ≤ argv.length →
        runValidator (fileLines.map pyRstrip) = .ok errs → errs ≠ [] →
        run_main argv fileLines = .ok (errs.map Err.format, 1)) ∧
    (∀ e : Err, Err.format e = "(L" ++ pad3 (e.lineNum + 1) ++ ") " ++ e.msg) ∧
    (∀ (argv fileLines : List String), 2 ≤ argv.length →
        runValidator (fileLines.map pyRstrip) = .ok [] →
        run_main argv fileLines = .ok ([], 0)) ∧
    (∀ (argv fileLines : List String), 2 ≤ argv.length →
        (∀ l ∈ fileLines.map pyRstrip, pyStartsWith l anchorStr = false ∧
          pyStartsWith l "|" = false) →
        run_main argv fileLines = .ok ([], 0)) := by
  have hskip : ∀ (ls : List String),
      (∀ l ∈ ls, pyStartsWith l anchorStr = false ∧ pyStartsWith l "|" = false) →
      runValidator ls = .ok [] := by
    intro ls h2
    have hsk : ∀ l ∈ ls, skipLine l := fun l hl => ⟨(h2 l hl).1, Or.inl (h2 l hl).2⟩
    have halpha : check_alphabetical ls = .ok [] := by
      unfold check_alphabetical
      rw [alphaScan_skips ls ⟨[], [], none⟩ 0 hsk]
      rfl
    have hfmt : check_format_lines ls = .ok [] := by
      unfold check_format_lines
      rw [fmtScan_skips ls ⟨minEntriesPerSection + 1, "", 0⟩ 0 hsk]
    unfold runValidator
    rw [halpha, hfmt]
    rfl
  refine ⟨?_, ?_, ?_, ?_, ?_⟩
  · intro argv fileLines h
    unfold run_main
    rw [if_pos h]
  · intro argv fileLines errs hlen hv hne
    have hrm : run_main argv fileLines =
        (if errs.length > 0 then .ok (errs.map Err.format, 1) else .ok ([], 0)) := by
      unfold run_main
      rw [if_neg (by omega), hv]
    rw [hrm, if_pos (by simpa [List.length_pos] using hne)]
  · intro e
    rfl
  · intro argv fileLines hlen hv
    unfold run_main
    rw [if_neg (by omega), hv]
    rfl
  · intro argv fileLines hlen h2
    unfold run_main
    rw [if_neg (by omega), hskip (fileLines.map pyRstrip) h2]
    rfl

/-- Witness for C8: the three exit paths at concrete inputs. -/
theorem c8_exit_protocol_witness :
    run_main ["prog"] ["### x"] = .ok ([usageMsg], 1) ∧
      run_main ["prog", "f"] ["###x x"] =
        .ok (["(L001) section header is not formatted correctly"], 1) ∧
      run_main ["prog", "f"] ["hello"] = .ok ([], 0) := by
  refine ⟨?_, ?_, ?_⟩
  · exact c8_exit_protocol.1 ["prog"] ["### x"] (by decide)
  · have h := c8_exit_protocol.2.1 ["prog", "f"] ["###x x"]
      [mkErr .headerFormat 0 headerFmtMsg] (by decide) rfl (by decide)
    exact h.trans (by rfl)
  · exact c8_exit_protocol.2.2.2.2 ["prog", "f"] ["hello"] (by decide)
      (by intro l hl; simp at hl; subst hl; exact ⟨rfl, rfl⟩)

/-- C10: in the printed output of every failing validation run, the
alphabetical-order errors come first — the whole output is the
alphabetical pass's errors followed by the scan pass's errors, and only
the former carry the alphabetical kind. -/
theorem c10_alpha_errors_first (argv fileLines : List String) (out : List String)
    (hlen : 2 ≤ argv.length) (h : run_main argv fileLines = .ok (out, 1)) :
    ∃ a f, check_alphabetical (fileLines.map pyRstrip) = .ok a ∧
      check_format_lines (fileLines.map pyRstrip) = .ok f ∧
      out = a.map Err.format ++ f.map Err.format ∧
      (∀ e ∈ a, e.kind = .alphabetical) ∧ (∀ e ∈ f, e.kind ≠ .alphabetical) := by
  unfold run_main at h
  rw [if_neg (by omega)] at h
  cases hv : runValidator (fileLines.map pyRstrip) with
  | error e => rw [hv] at h; simp at h
  | ok errs =>
      rw [hv] at h
      have hred : (match (Except.ok errs : Except PyExc (List Err)) with
          | Except.error e => (Except.error e : Except PyExc (List String × Nat))
          | Except.ok errs =>
              if errs.length > 0 then .ok (errs.map Err.format, 1) else .ok ([], 0)) =
          (if errs.length > 0 then .ok (errs.map Err.format, 1) else .ok ([], 0)) := rfl
      rw [hred] at h
      by_cases hpos : errs.length > 0
      · rw [if_pos hpos] at h
        simp only [Except.ok.injEq, Prod.mk.injEq] at h
        obtain ⟨hout, -⟩ := h
        unfold runValidator at hv
        cases ha : check_alphabetical (fileLines.map pyRstrip) with
        | error e => rw [ha] at hv; simp at hv
        | ok a =>
            rw [ha] at hv
            cases hf : check_format_lines (fileLines.map pyRstrip) with
            | error e => rw [hf] at hv; simp at hv
            | ok f =>
                rw [hf] at hv
                simp only [Except.ok.injEq] at hv
                subst hv
                refine ⟨a, f, rfl, rfl, ?_, ?_, ?_⟩
                · rw [← hout, List.map_append]
                · exact check_alphabetical_kinds (fileLines.map pyRstrip) a ha
                · intro e he
                  unfold check_format_lines at hf
                  cases hs : fmtScan ⟨minEntriesPerSection + 1, "", 0⟩ 0
                      (fileLines.map pyRstrip) with
                  | error e2 => rw [hs] at hf; simp at hf
                  | ok p =>
                      obtain ⟨stF, errs2⟩ := p
                      rw [hs] at hf
                      simp only [Except.ok.injEq] at hf
                      rw [← hf] at he
                      exact fmtScan_kinds (fileLines.map pyRstrip) _ 0 stF errs2 hs e he
      · rw [if_neg hpos] at h
        simp at h

/-- Strings with equal character data are equal. -/
theorem str_data_inj {a b : String} (h : a.data = b.data) : a = b := by
  cases a
  cases b
  simp only at h
  rw [h]

/-- The alphabetical message determines the section name. -/
theorem alphaMsg_inj {a b : String} (h : alphaMsg a = alphaMsg b) : a = b := by
  unfold alphaMsg at h
  have hd := congrArg String.data h
  rw [String.data_append, String.data_append] at hd
  exact str_data_inj (List.append_cancel_right hd)

/-- Appending a title to the open section leaves the name sequence
unchanged. -/
theorem appendToLast_map_secName (t : String) (l : List (Nat × String × List String)) :
    (appendToLast t l).map secName = l.map secName := by
  induction l with
  | nil => rfl
  | cons x xs ih =>
      cases xs with
      | nil => obtain ⟨p, n, ts⟩ := x; rfl
      | cons y ys =>
          show secName x :: (appendToLast t (y :: ys)).map secName = _
          rw [ih]
          rfl

/-- Appending a title to the open section leaves the line-number pairs
unchanged. -/
theorem appendToLast_map_lnPair (t : String) (l : List (Nat × String × List String)) :
    (appendToLast t l).map lnPair = l.map lnPair := by
  induction l with
  | nil => rfl
  | cons x xs ih =>
      cases xs with
      | nil => obtain ⟨p, n, ts⟩ := x; rfl
      | cons y ys =>
          show lnPair x :: (appendToLast t (y :: ys)).map lnPair = _
          rw [ih]
          rfl

/-- `appendToLast` keeps a nonempty parse nonempty. -/
theorem appendToLast_ne_nil (t : String) (y : Nat × String × List String)
    (ys : List (Nat × String × List String)) : appendToLast t (y :: ys) ≠ [] := by
  cases ys with
  | nil => obtain ⟨p, n, ts⟩ := y; simp [appendToLast]
  | cons z zs => simp [appendToLast]

/-- Appending a title to the open section does not change which section is
open. -/
theorem appendToLast_getLast_name (t : String) (l : List (Nat × String × List String)) :
    (appendToLast t l).getLast?.map secName = l.getLast?.map secName := by
  induction l with
  | nil => rfl
  | cons x xs ih =>
      cases xs with
      | nil => obtain ⟨p, n, ts⟩ := x; rfl
      | cons y ys =>
          show (x :: appendToLast t (y :: ys)).getLast?.map secName = _
          obtain ⟨z, zs, hz⟩ := List.exists_cons_of_ne_nil (appendToLast_ne_nil t y ys)
          rw [hz, List.getLast?_cons_cons, ← hz, List.getLast?_cons_cons, ih]

/-- Dict assignment with a fresh key appends the pair. -/
theorem dictSet_fresh {α : Type} (d : List (String × α)) (k : String) (v : α)
    (h : ∀ p ∈ d, p.1 ≠ k) : dictSet d k v = d ++ [(k, v)] := by
  unfold dictSet
  have hany : d.any (fun p => p.1 == k) = false := by
    rw [List.any_eq_false]
    intro p hp
    simpa using h p hp
  rw [hany]
  rfl

/-- Updating the dict entry of the open (last, not-repeated) section is
appending the title to the structural parse. -/
theorem dict_update_appendToLast (t : String) (l : List (Nat × String × List String))
    (c : String) (hc : l.getLast?.map secName = some c)
    (hnd : (l.map secName).Nodup) :
    (l.map secPair).map (fun p => if p.1 == c then (p.1, p.2 ++ [t]) else p) =
      (appendToLast t l).map secPair := by
  induction l with
  | nil => simp at hc
  | cons x xs ih =>
      obtain ⟨p, n, ts⟩ := x
      cases xs with
      | nil =>
          simp [secName] at hc
          subst hc
          simp [secPair, appendToLast]
      | cons y ys =>
          have hc2 : (y :: ys).getLast?.map secName = some c := by
            rw [← hc, List.getLast?_cons_cons]
          have hcmem : c ∈ (y :: ys).map secName := by
            cases hz : (y :: ys).getLast? with
            | none => rw [hz] at hc2; simp at hc2
            | some z =>
                rw [hz] at hc2
                simp only [Option.map_some', Option.some.injEq] at hc2
                rw [← hc2]
                apply List.mem_map_of_mem secName
                obtain ⟨hne2, hzl⟩ := List.mem_getLast?_eq_getLast (by rw [hz]; rfl)
                rw [hzl]
                exact List.getLast_mem hne2
          have hn : n ≠ c := by
            have hnotin : n ∉ (y :: ys).map secName :=
              (List.nodup_cons.mp (by simpa [secName] using hnd)).1
            intro he
            rw [he] at hnotin
            exact hnotin hcmem
          have htail := ih hc2 (List.Nodup.of_cons (by simpa [secName] using hnd))
          simp only [List.map_cons] at htail ⊢
          rw [show appendToLast t ((p, n, ts) :: y :: ys) =
              (p, n, ts) :: appendToLast t (y :: ys) from rfl, List.map_cons, htail]
          simp [secPair, hn]

/-- The structural parse only ever appends section names. -/
theorem specScan_names (rest : List String) (acc : List (Nat × String × List String))
    (ln : Nat) :
    ∃ ext, (specScan acc ln rest).map secName = acc.map secName ++ ext := by
  induction rest generalizing acc ln with
  | nil => exact ⟨[], by simp [specScan]⟩
  | cons line rest ih =>
      by_cases h1 : pyStartsWith line anchorStr = true
      · have hun : specScan acc ln (line :: rest) =
            specScan (acc ++ [(ln, headerName line, [])]) (ln + 1) rest := by
          simp only [specScan]
          rw [h1]
          rfl
        rw [hun]
        obtain ⟨ext, hext⟩ := ih (acc ++ [(ln, headerName line, [])]) (ln + 1)
        refine ⟨secName (ln, headerName line, []) :: ext, ?_⟩
        rw [hext]
        simp
      · by_cases h2 : (!(pyStartsWith line "|") || pyStartsWith line "|---") = true
        · have hun : specScan acc ln (line :: rest) = specScan acc (ln + 1) rest := by
            simp only [specScan]
            rw [if_neg (by simp [h1]), if_pos h2]
          rw [hun]
          exact ih acc (ln + 1)
        · have hun : specScan acc ln (line :: rest) =
              specScan (appendToLast (rowTitleUpper line) acc) (ln + 1) rest := by
            simp only [specScan]
            rw [if_neg (by simp [h1]), if_neg h2]
          rw [hun]
          obtain ⟨ext, hext⟩ := ih (appendToLast (rowTitleUpper line) acc) (ln + 1)
          rw [appendToLast_map_secName] at hext
          exact ⟨ext, hext⟩

/-- With pairwise-distinct section names, the line-number dict maps each
section's name to its header line. -/
theorem lnPair_find (acc : List (Nat × String × List String))
    (x : Nat × String × List String) (hmem : x ∈ acc)
    (hnd : (acc.map secName).Nodup) :
    List.find? (fun p => p.1 == x.2.1) (acc.map lnPair) = some (x.2.1, x.1) := by
  induction acc with
  | nil => simp at hmem
  | cons y ys ih =>
      rcases List.mem_cons.mp hmem with rfl | hm
      · rw [List.map_cons]
        rw [List.find?_cons_of_pos _ (by simp [lnPair])]
        rfl
      · have hy : secName y ≠ secName x := by
          have hnotin : secName y ∉ ys.map secName :=
            (List.nodup_cons.mp (by simpa using hnd)).1
          intro he
          rw [he] at hnotin
          exact hnotin (List.mem_map_of_mem secName hm)
        rw [List.map_cons]
        rw [List.find?_cons_of_neg _ (by simpa [lnPair, secName] using hy)]
        exact ih hm (List.Nodup.of_cons (by simpa using hnd))

/-- The emission loop over a dict that matches a structural parse produces
exactly one error per unsorted section, attributed to its header line. -/
theorem alphaEmit_refine (l : List (Nat × String × List String))
    (lns : List (String × Nat))
    (hl : ∀ x ∈ l, dictGet lns x.2.1 = .ok x.1) :
    alphaEmit lns (l.map secPair) = .ok (l.filterMap alphaEmitF) := by
  induction l with
  | nil => rfl
  | cons x xs ih =>
      obtain ⟨p, n, ts⟩ := x
      have hstep : secPair (p, n, ts) = (n, ts) := rfl
      rw [List.map_cons, hstep]
      by_cases hs : pySorted ts = ts
      · have h1 : alphaEmit lns ((n, ts) :: xs.map secPair) = alphaEmit lns (xs.map secPair) := by
          simp only [alphaEmit]
          rw [if_pos hs]
        rw [h1, ih (fun y hy => hl y (by simp [hy]))]
        simp [List.filterMap_cons, alphaEmitF, hs]
      · have hg : dictGet lns n = .ok p := hl (p, n, ts) (by simp)
        have h1 : alphaEmit lns ((n, ts) :: xs.map secPair) =
            match alphaEmit lns (xs.map secPair) with
            | .error e => .error e
            | .ok more => .ok (mkErr .alphabetical p (alphaMsg n) :: more) := by
          simp only [alphaEmit]
          rw [if_neg hs, hg]
        rw [h1, ih (fun y hy => hl y (by simp [hy]))]
        simp only [List.filterMap_cons]
        rw [show alphaEmitF (p, n, ts) = some (mkErr .alphabetical p (alphaMsg n)) by
          unfold alphaEmitF; rw [if_neg hs]]

/-- A successful index gives the underlying optional lookup. -/
theorem pyIdx_ok_get? {α : Type} (xs : List α) (i : Nat) (v : α)
    (h : pyIdx xs i = .ok v) : xs.get? i = some v := by
  unfold pyIdx at h
  cases hx : xs.get? i with
  | none => rw [hx] at h; simp at h
  | some w => rw [hx] at h; simp only [Except.ok.injEq] at h; rw [h]

/-- A successful index agrees with the defaulted lookup. -/
theorem pyIdx_ok_getD {α : Type} (xs : List α) (i : Nat) (v d : α)
    (h : pyIdx xs i = .ok v) : xs.getD i d = v := by
  rw [List.getD_eq_get?, pyIdx_ok_get? xs i v h]
  rfl

/-- The scan loop of `check_alphabetical` refines the structural parse:
when every section name is distinct and the scan succeeds, the dicts it
builds are exactly the parse's sections and header lines, and the open
category is the last section's name. -/
theorem alpha_refine (rest : List String) (ln : Nat)
    (acc : List (Nat × String × List String)) (st stF : AlphaState)
    (hsec : st.sections = acc.map secPair)
    (hlnn : st.lineNums = acc.map lnPair)
    (hcat : st.category = acc.getLast?.map secName)
    (hnd : ((specScan acc ln rest).map secName).Nodup)
    (h : alphaScan st ln rest = .ok stF) :
    stF.sections = (specScan acc ln rest).map secPair ∧
      stF.lineNums = (specScan acc ln rest).map lnPair ∧
      stF.category = (specScan acc ln rest).getLast?.map secName := by
  induction rest generalizing ln acc st with
  | nil =>
      simp only [alphaScan, Except.ok.injEq] at h
      subst h
      exact ⟨hsec, hlnn, hcat⟩
  | cons line rest ih =>
      simp only [alphaScan] at h
      cases hstep : alphaStep st ln line with
      | error e => rw [hstep] at h; simp at h
      | ok st1 =>
          rw [hstep] at h
          by_cases h1 : pyStartsWith line anchorStr = true
          · have hspec : specScan acc ln (line :: rest) =
                specScan (acc ++ [(ln, headerName line, [])]) (ln + 1) rest := by
              simp only [specScan]
              rw [h1]
              rfl
            rw [hspec] at hnd ⊢
            unfold alphaStep at hstep
            rw [h1, if_pos rfl] at hstep
            cases hpi : pyIdx (pySplitAnchor line) 1 with
            | error e => rw [hpi] at hstep; simp at hstep
            | ok raw =>
                rw [hpi] at hstep
                simp only [Except.ok.injEq] at hstep
                have hhn : headerName line = pyStrip raw := by
                  unfold headerName
                  rw [pyIdx_ok_getD _ _ _ _ hpi]
                have hfresh : ∀ q ∈ acc, secName q ≠ headerName line := by
                  obtain ⟨ext, hext⟩ :=
                    specScan_names rest (acc ++ [(ln, headerName line, [])]) (ln + 1)
                  rw [hext] at hnd
                  have hnd2 : ((acc ++ [(ln, headerName line, [])]).map secName).Nodup :=
                    hnd.sublist (List.sublist_append_left _ _)
                  rw [List.map_append] at hnd2
                  obtain ⟨-, -, hdisj⟩ := List.nodup_append.mp hnd2
                  intro q hq he
                  exact hdisj (List.mem_map_of_mem secName hq) (by simpa [secName] using he)
                refine ih (ln + 1) (acc ++ [(ln, headerName line, [])]) st1 ?_ ?_ ?_ hnd h
                · rw [← hstep]
                  show dictSet st.sections (pyStrip raw) [] = _
                  rw [hsec, ← hhn,
                    dictSet_fresh _ _ _ (fun p hp => by
                      obtain ⟨q, hq, rfl⟩ := List.mem_map.mp hp
                      exact hfresh q hq)]
                  rw [List.map_append]
                  rfl
                · rw [← hstep]
                  show dictSet st.lineNums (pyStrip raw) ln = _
                  rw [hlnn, ← hhn,
                    dictSet_fresh _ _ _ (fun p hp => by
                      obtain ⟨q, hq, rfl⟩ := List.mem_map.mp hp
                      exact hfresh q hq)]
                  rw [List.map_append]
                  rfl
                · rw [← hstep]
                  show some (pyStrip raw) = _
                  rw [List.getLast?_concat, ← hhn]
                  rfl
          · by_cases h2 : (!(pyStartsWith line "|") || pyStartsWith line "|---") = true
            · have hst1 : st1 = st := by
                unfold alphaStep at hstep
                rw [if_neg (by simp [h1]), if_pos h2] at hstep
                simp only [Except.ok.injEq] at hstep
                exact hstep.symm
              subst hst1
              have hspec : specScan acc ln (line :: rest) = specScan acc (ln + 1) rest := by
                simp only [specScan]
                rw [if_neg (by simp [h1]), if_pos h2]
              rw [hspec] at hnd ⊢
              exact ih (ln + 1) acc st1 hsec hlnn hcat hnd h
            · have hspec : specScan acc ln (line :: rest) =
                  specScan (appendToLast (rowTitleUpper line) acc) (ln + 1) rest := by
                simp only [specScan]
                rw [if_neg (by simp [h1]), if_neg h2]
              rw [hspec] at hnd ⊢
              unfold alphaStep at hstep
              rw [if_neg (by simp [h1]), if_neg h2] at hstep
              cases hpi : pyIdx ((rowCells line).map pyStrip) 0 with
              | error e => rw [hpi] at hstep; simp at hstep
              | ok t =>
                  rw [hpi] at hstep
                  cases hcatv : st.category with
                  | none => rw [hcatv] at hstep; simp at hstep
                  | some c =>
                      rw [hcatv] at hstep
                      have hstep2 : (match dictAppendTitle st.sections c (pyUpper t) with
                          | Except.error e => (Except.error e : Except PyExc AlphaState)
                          | Except.ok secs =>
                              Except.ok ⟨secs, st.lineNums, some c⟩) = Except.ok st1 := hstep
                      cases hda : dictAppendTitle st.sections c (pyUpper t) with
                      | error e => rw [hda] at hstep2; simp at hstep2
                      | ok secs =>
                          rw [hda] at hstep2
                          simp only [Except.ok.injEq] at hstep2
                          have hcc : acc.getLast?.map secName = some c := by
                            rw [← hcat]
                            exact hcatv
                          have hndacc : (acc.map secName).Nodup := by
                            obtain ⟨ext, hext⟩ := specScan_names rest
                              (appendToLast (rowTitleUpper line) acc) (ln + 1)
                            rw [hext, appendToLast_map_secName] at hnd
                            exact hnd.sublist (List.sublist_append_left _ _)
                          have htitle : pyUpper t = rowTitleUpper line := by
                            unfold rowTitleUpper
                            have hg := pyIdx_ok_get? _ _ _ hpi
                            rw [List.get?_map] at hg
                            cases hc0 : (rowCells line).get? 0 with
                            | none => rw [hc0] at hg; simp at hg
                            | some c0 =>
                                rw [hc0] at hg
                                simp only [Option.map_some', Option.some.injEq] at hg
                                rw [List.getD_eq_get?, hc0]
                                rw [← hg]
                                rfl
                          have hzmem : ∃ z ∈ acc, secName z = c := by
                            cases hz : acc.getLast? with
                            | none => rw [hz] at hcc; simp at hcc
                            | some z =>
                                rw [hz] at hcc
                                simp only [Option.map_some', Option.some.injEq] at hcc
                                refine ⟨z, ?_, hcc⟩
                                obtain ⟨hne2, hzl⟩ :=
                                  List.mem_getLast?_eq_getLast (by rw [hz]; rfl)
                                rw [hzl]
                                exact List.getLast_mem hne2
                          have hkey : st.sections.any (fun p => p.1 == c) = true := by
                            rw [hsec, List.any_eq_true]
                            obtain ⟨z, hzin, hzn⟩ := hzmem
                            exact ⟨secPair z, List.mem_map_of_mem secPair hzin,
                              by simp [secPair, secName] at hzn ⊢; exact hzn⟩
                          have hsecs : secs = (appendToLast (rowTitleUpper line) acc).map secPair := by
                            unfold dictAppendTitle at hda
                            rw [hkey, if_pos rfl] at hda
                            simp only [Except.ok.injEq] at hda
                            rw [← hda, hsec, htitle]
                            exact dict_update_appendToLast (rowTitleUpper line) acc c hcc hndacc
                          refine ih (ln + 1) (appendToLast (rowTitleUpper line) acc) st1
                            ?_ ?_ ?_ hnd h
                          · rw [← hstep2]
                            exact hsecs
                          · rw [← hstep2]
                            show st.lineNums = _
                            rw [hlnn, appendToLast_map_lnPair]
                          · rw [← hstep2]
                            show some c = _
                            rw [appendToLast_getLast_name]
                            exact hcc.symm

/-- With pairwise-distinct section names, the emitted error list contains
the alphabetical error of a given section exactly once if that section is
unsorted, and not at all if it is sorted. -/
theorem count_filterMap_alpha (l : List (Nat × String × List String))
    (hnd : (l.map secName).Nodup) (p : Nat) (n : String) (ts : List String)
    (hmem : (p, n, ts) ∈ l) :
    (l.filterMap alphaEmitF).count (mkErr .alphabetical p (alphaMsg n)) =
      if pySorted ts = ts then 0 else 1 := by
  induction l with
  | nil => simp at hmem
  | cons x xs ih =>
      rcases List.mem_cons.mp hmem with heq | hm
      · subst heq
        have hnin : n ∉ xs.map secName :=
          (List.nodup_cons.mp (by simpa [secName] using hnd)).1
        have hrest : (xs.filterMap alphaEmitF).count (mkErr .alphabetical p (alphaMsg n)) = 0 := by
          rw [List.count_eq_zero]
          intro hmem2
          obtain ⟨y, hy, hyz⟩ := List.mem_filterMap.mp hmem2
          unfold alphaEmitF at hyz
          by_cases hys : pySorted y.2.2 = y.2.2
          · rw [if_pos hys] at hyz; cases hyz
          · rw [if_neg hys] at hyz
            simp only [Option.some.injEq] at hyz
            have hmsg : alphaMsg y.2.1 = alphaMsg n := congrArg Err.msg hyz
            apply hnin
            rw [← alphaMsg_inj hmsg]
            exact List.mem_map_of_mem secName hy
        rw [List.filterMap_cons]
        by_cases hs : pySorted ts = ts
        · rw [if_pos hs]
          rw [show alphaEmitF (p, n, ts) = none by unfold alphaEmitF; rw [if_pos hs]]
          exact hrest
        · rw [if_neg hs]
          rw [show alphaEmitF (p, n, ts) = some (mkErr .alphabetical p (alphaMsg n)) by
            unfold alphaEmitF; rw [if_neg hs]]
          rw [List.count_cons_self, hrest]
      · have hxn : secName x ≠ n := by
          have hnotin : secName x ∉ xs.map secName :=
            (List.nodup_cons.mp (by simpa using hnd)).1
          intro he
          apply hnotin
          rw [he]
          exact List.mem_map_of_mem secName hm
        have htailnd : (xs.map secName).Nodup := List.Nodup.of_cons (by simpa using hnd)
        rw [List.filterMap_cons]
        cases hfx : alphaEmitF x with
        | none => exact ih htailnd hm
        | some err =>
            have hne : mkErr .alphabetical p (alphaMsg n) ≠ err := by
              unfold alphaEmitF at hfx
              by_cases hys : pySorted x.2.2 = x.2.2
              · rw [if_pos hys] at hfx; cases hfx
              · rw [if_neg hys] at hfx
                simp only [Option.some.injEq] at hfx
                rw [← hfx]
                intro he
                have hmsg : alphaMsg n = alphaMsg x.2.1 := congrArg Err.msg he
                exact hxn (alphaMsg_inj hmsg).symm
            rw [List.count_cons_of_ne hne]
            exact ih htailnd hm

/-- C7 counterexample: with two sections both named `A`, the first section
has unsorted titles, yet no alphabetical error at all is emitted — the
second `### A` header resets the dict entry keyed by the shared name. -/
theorem c7_counterexample :
    check_alphabetical ["### A", "| B | x |", "| A | x |", "### A"] = .ok [] ∧
      (0, "A", ["B", "A"]) ∈ specSections ["### A", "| B | x |", "| A | x |", "### A"] ∧
      pySorted ["B", "A"] ≠ ["B", "A"] :=
  ⟨rfl, by decide, by decide⟩

/-- C7 (amended): in a document whose section header names are pairwise
distinct, the alphabetical pass emits, per section and attributed to that
section's header line, exactly one error iff the section's uppercased row
titles in document order differ from that list sorted ascending — and
nothing else. -/
theorem c7_alphabetical_per_section (lines : List String) (errs : List Err)
    (hnd : ((specSections lines).map secName).Nodup)
    (h : check_alphabetical lines = .ok errs) :
    errs = (specSections lines).filterMap alphaEmitF ∧
      ∀ (p : Nat) (n : String) (ts : List String), (p, n, ts) ∈ specSections lines →
        errs.count (mkErr .alphabetical p (alphaMsg n)) =
          (if pySorted ts = ts then 0 else 1) := by
  unfold check_alphabetical at h
  cases hs : alphaScan ⟨[], [], none⟩ 0 lines with
  | error e => rw [hs] at h; simp at h
  | ok stF =>
      rw [hs] at h
      obtain ⟨hsecs, hlnns, -⟩ :=
        alpha_refine lines 0 [] ⟨[], [], none⟩ stF rfl rfl rfl hnd hs
      have hemit : alphaEmit stF.lineNums stF.sections =
          .ok ((specSections lines).filterMap alphaEmitF) := by
        rw [hsecs, hlnns]
        apply alphaEmit_refine
        intro x hx
        unfold dictGet
        rw [lnPair_find (specScan [] 0 lines) x hx hnd]
      have h2 : alphaEmit stF.lineNums stF.sections = .ok errs := h
      rw [hemit] at h2
      simp only [Except.ok.injEq] at h2
      subst h2
      refine ⟨rfl, ?_⟩
      intro p n ts hmem
      exact count_filterMap_alpha (specSections lines) hnd p n ts hmem

/-- Witness for C7 (amended): the `["Banana", "Apple"]` section yields
exactly one alphabetical error at its header line. -/
theorem c7_alphabetical_per_section_witness :
    [mkErr .alphabetical 0 (alphaMsg "S")].count (mkErr .alphabetical 0 (alphaMsg "S")) = 1 := by
  have h := c7_alphabetical_per_section ["### S", "| Banana | x |", "| Apple | x |"]
    [mkErr .alphabetical 0 (alphaMsg "S")] (by decide) rfl
  exact (h.2 0 "S" ["BANANA", "APPLE"] (by decide)).trans (by rfl)

/-- Witness for C10: a failing run whose output holds an alphabetical
error followed by a count error, in that order. -/
theorem c10_alpha_errors_first_witness :
    ∃ a f, check_alphabetical ((["### S",
        "| B | D | No | Yes | Yes | [Go!](http) |",
        "| A | D | No | Yes | Yes | [Go!](http) |",
        "### T",
        "| C | D | No | Yes | Yes | [Go!](http) |",
        "| D | D | No | Yes | Yes | [Go!](http) |",
        "| E | D | No | Yes | Yes | [Go!](http) |"] : List String).map pyRstrip) = .ok a ∧
      check_format_lines ((["### S",
        "| B | D | No | Yes | Yes | [Go!](http) |",
        "| A | D | No | Yes | Yes | [Go!](http) |",
        "### T",
        "| C | D | No | Yes | Yes | [Go!](http) |",
        "| D | D | No | Yes | Yes | [Go!](http) |",
        "| E | D | No | Yes | Yes | [Go!](http) |"] : List String).map pyRstrip) = .ok f ∧
      ["(L001) S section is not in alphabetical order",
       "(L001) S section does not have the minimum 3 entries (only has 2)"] =
        a.map Err.format ++ f.map Err.format ∧
      (∀ e ∈ a, e.kind = .alphabetical) ∧ (∀ e ∈ f, e.kind ≠ .alphabetical) :=
  c10_alpha_errors_first ["p", "f"]
    ["### S",
     "| B | D | No | Yes | Yes | [Go!](http) |",
     "| A | D | No | Yes | Yes | [Go!](http) |",
     "### T",
     "| C | D | No | Yes | Yes | [Go!](http) |",
     "| D | D | No | Yes | Yes | [Go!](http) |",
     "| E | D | No | Yes | Yes | [Go!](http) |"]
    ["(L001) S section is not in alphabetical order",
     "(L001) S section does not have the minimum 3 entries (only has 2)"]
    (by decide) rfl
